import Mathlib

/-!
GAMESERVER logging library: pattern compiler, format items, handlers, logger.

A shallow embedding of `gameserver/Log/log.h` and `gameserver/Log/log.cc`.

* `std::string` is a list of characters (`Str`); `m_pattern[n]` is a checked
  index and `substr` a checked extraction, so an out-of-range access or a
  `std::out_of_range` shows up as `none`.
* The two loops of `LogFormatter::init` keep the indices `i` and `n` of the
  source.  They recurse on a fuel counter; running out of fuel is `none` as
  well, and `LogFormatter.init` starts them with more fuel than the pattern
  has characters.
* `strftime`/`localtime_r` are library code: date rendering is a parameter
  `strftime : Str → Nat → Str` (sub-pattern, timestamp).
* A `std::ostream` is its content together with the state that an insertion
  depends on (`OStream`).
* A handler writes to `std::cout` or to its file stream; the embedding records
  the sequence of writes (`Write`) a call performs.
-/

namespace gameserver

/-- The embedding of `std::string`. -/
abbrev Str := List Char

/-! ## LogLevel -/

namespace LogLevel

/-- The enum `LogLevel::Level` of log.h. -/
inductive Level where
  | UNKNOW
  | DEBUG
  | INFO
  | WARN
  | ERROR
  | FATAL
  deriving DecidableEq, Repr

/-- The integer value of an enumerator (`UNKNOW = 0` ... `FATAL = 5`). -/
def Level.toNat : Level → Nat
  | .UNKNOW => 0
  | .DEBUG => 1
  | .INFO => 2
  | .WARN => 3
  | .ERROR => 4
  | .FATAL => 5

/-- The function `LogLevel::ToString`: the `XX` cases name DEBUG..FATAL, every
other value takes the `default:` branch. -/
def ToString (level : Level) : Str :=
  match level with
  | .DEBUG => "DEBUG".toList
  | .INFO => "INFO".toList
  | .WARN => "WARN".toList
  | .ERROR => "ERROR".toList
  | .FATAL => "FATAL".toList
  | _ => "UNKNOW".toList

end LogLevel

open LogLevel (Level)

/-! ## Strings -/

/-- The call `s.substr(pos, len)`: throws `std::out_of_range` (here `none`) when
`pos > s.size()`, otherwise the at most `len` characters from `pos` on. -/
def substr (s : Str) (pos len : Nat) : Option Str :=
  if pos ≤ s.length then some ((s.drop pos).take len) else none

/-- The call `s.substr(pos)`: everything from `pos` on, `none` when
`pos > s.size()`. -/
def substrFrom (s : Str) (pos : Nat) : Option Str :=
  if pos ≤ s.length then some (s.drop pos) else none

/-- The libc `isalpha` in the "C" locale: the ASCII letters.  A character
outside ASCII stands for bytes above 127, none of which is a letter. -/
def isalpha (c : Char) : Bool :=
  c.isAlpha

/-! ## Format items -/

namespace LogFormatter

/-- The subclasses of `LogFormatter::FormatItem` of log.cc, with the members
they store. -/
inductive FormatItem where
  | MessageFormatItem
  | LevelFormatItem
  | ElapseFormatItem
  | NameFormatItem
  | ThreadIdFormatItem
  | FiberIdFormatItem
  | ThreadNameFormatItem
  | DateTimeFormatItem (m_format : Str)
  | FilenameFormatItem
  | LineFormatItem
  | NewLineFormatItem
  | StringFormatItem (m_string : Str)
  | TabFormatItem
  deriving DecidableEq, Repr

/-- The constructor `DateTimeFormatItem(format)`: an empty argument is replaced
by the default sub-pattern. -/
def DateTimeFormatItem.new (format : Str) : FormatItem :=
  if format.isEmpty then .DateTimeFormatItem "%Y-%m-%d %H:%M:%S".toList
  else .DateTimeFormatItem format

/-- The static map `s_format_items` of `init`: directive name to the
constructor of its item, applied to the `\x7b...\x7d` argument. -/
def s_format_items (str : Str) : Option (Str → FormatItem) :=
  if str = ['m'] then some (fun _ => .MessageFormatItem)
  else if str = ['p'] then some (fun _ => .LevelFormatItem)
  else if str = ['r'] then some (fun _ => .ElapseFormatItem)
  else if str = ['c'] then some (fun _ => .NameFormatItem)
  else if str = ['t'] then some (fun _ => .ThreadIdFormatItem)
  else if str = ['n'] then some (fun _ => .NewLineFormatItem)
  else if str = ['d'] then some (fun fmt => DateTimeFormatItem.new fmt)
  else if str = ['f'] then some (fun _ => .FilenameFormatItem)
  else if str = ['l'] then some (fun _ => .LineFormatItem)
  else if str = ['T'] then some (fun _ => .TabFormatItem)
  else if str = ['F'] then some (fun _ => .FiberIdFormatItem)
  else if str = ['N'] then some (fun _ => .ThreadNameFormatItem)
  else none

/-! ## The pattern compiler `LogFormatter::init` -/

/-- One entry of the vector `vec` of `init`: the tuple `(str, format, type)`. -/
structure Tok where
  str : Str
  fmt : Str
  type : Nat
  deriving DecidableEq, Repr

/-- The locals of the inner `while` loop of `init`. -/
structure ScanState where
  n : Nat
  fmt_status : Nat
  fmt_begin : Nat
  str : Str
  fmt : Str
  deriving DecidableEq, Repr

/-- The tail of the `while` body: `++n`, then the check `n == m_pattern.size()`
that takes the rest of the pattern as the name when no name is set yet. -/
def scanAdvance (m_pattern : Str) (i : Nat) (s : ScanState) : Option ScanState :=
  let n := s.n + 1
  if n = m_pattern.length then
    if s.str.isEmpty then
      (substrFrom m_pattern (i + 1)).bind fun str => some { s with n := n, str := str }
    else some { s with n := n }
  else some { s with n := n }

/-- The inner loop `while(n < m_pattern.size())` of `init`, for the `%` at
index `i`.  The first argument is fuel.  The loop starts at `n = i + 1` and
`fmt_begin` is an earlier value of `n`, so the `size_t` differences
`n - i - 1` and `n - fmt_begin - 1` do not wrap. -/
def scanDirective (m_pattern : Str) (i : Nat) : Nat → ScanState → Option ScanState
  | 0, _ => none
  | fuel + 1, s =>
    if s.n < m_pattern.length then
      m_pattern[s.n]?.bind fun c =>
      if s.fmt_status = 0 ∧ (!isalpha c ∧ c ≠ '{' ∧ c ≠ '}') then
        -- break
        (substr m_pattern (i + 1) (s.n - i - 1)).bind fun str => some { s with str := str }
      else if s.fmt_status = 0 then
        if c = '{' then
          -- continue
          (substr m_pattern (i + 1) (s.n - i - 1)).bind fun str =>
            scanDirective m_pattern i fuel
              { s with str := str, fmt_status := 1, fmt_begin := s.n, n := s.n + 1 }
        else
          (scanAdvance m_pattern i s).bind (scanDirective m_pattern i fuel)
      else if s.fmt_status = 1 then
        if c = '}' then
          -- break
          (substr m_pattern (s.fmt_begin + 1) (s.n - s.fmt_begin - 1)).bind fun fmt =>
            some { s with fmt := fmt, fmt_status := 0, n := s.n + 1 }
        else
          (scanAdvance m_pattern i s).bind (scanDirective m_pattern i fuel)
      else
        (scanAdvance m_pattern i s).bind (scanDirective m_pattern i fuel)
    else some s

/-- What the outer `for` loop of `init` carries: the pending literal `nstr`,
the vector `vec` and the member `m_error`. -/
structure InitState where
  nstr : Str
  vec : List Tok
  m_error : Bool
  deriving DecidableEq, Repr

/-- The outer loop `for(size_t i = 0; i < m_pattern.size(); ++i)` of `init`.
The first argument is fuel, the second the index `i`.  The text that the
error branch prints to `std::cout` is not recorded, only the `substr` it
performs. -/
def initLoop (m_pattern : Str) : Nat → Nat → InitState → Option InitState
  | 0, _, _ => none
  | fuel + 1, i, st =>
    if i < m_pattern.length then
      m_pattern[i]?.bind fun c =>
      if c ≠ '%' then
        initLoop m_pattern fuel (i + 1) { st with nstr := st.nstr ++ [c] }
      else
        (if i + 1 < m_pattern.length then
            m_pattern[i + 1]?.bind fun c1 => some (decide (c1 = '%'))
          else some false).bind fun escape =>
        if escape then
          initLoop m_pattern fuel (i + 1) { st with nstr := st.nstr ++ ['%'] }
        else
          (scanDirective m_pattern i (m_pattern.length + 1)
              { n := i + 1, fmt_status := 0, fmt_begin := 0, str := [], fmt := [] }).bind fun s =>
          if s.fmt_status = 0 then
            let vec := if !st.nstr.isEmpty then st.vec ++ [⟨st.nstr, [], 0⟩] else st.vec
            let nstr := if !st.nstr.isEmpty then [] else st.nstr
            -- i = n - 1, then ++i
            initLoop m_pattern fuel (s.n - 1 + 1)
              { nstr := nstr, vec := vec ++ [⟨s.str, s.fmt, 1⟩], m_error := st.m_error }
          else if s.fmt_status = 1 then
            -- the diagnostic line printed here extracts m_pattern.substr(i)
            (substrFrom m_pattern i).bind fun _ =>
            initLoop m_pattern fuel (i + 1)
              { st with m_error := true,
                        vec := st.vec ++ [⟨"<<pattern_error>>".toList, s.fmt, 0⟩] }
          else
            initLoop m_pattern fuel (i + 1) st
    else some st

/-- The last loop of `init`: every entry of `vec` becomes an item; a name that
is not in `s_format_items` becomes an error literal and sets `m_error`. -/
def buildItems : List Tok → List FormatItem × Bool → List FormatItem × Bool
  | [], acc => acc
  | i :: vec, (m_items, m_error) =>
    if i.type = 0 then
      buildItems vec (m_items ++ [.StringFormatItem i.str], m_error)
    else
      match s_format_items i.str with
      | none =>
        buildItems vec
          (m_items ++ [.StringFormatItem ("<<error_format %".toList ++ i.str ++ ">>".toList)], true)
      | some it => buildItems vec (m_items ++ [it i.fmt], m_error)

/-- The function `LogFormatter::init` on a fresh formatter: the compiled
`m_items` and `m_error`; `none` when an access is out of range or the loops
run out of fuel. -/
def init (m_pattern : Str) : Option (List FormatItem × Bool) :=
  (initLoop m_pattern (m_pattern.length + 1) 0 { nstr := [], vec := [], m_error := false }).bind
    fun st =>
      let vec := if !st.nstr.isEmpty then st.vec ++ [⟨st.nstr, [], 0⟩] else st.vec
      some (buildItems vec ([], st.m_error))

end LogFormatter

/-- The class `LogFormatter`: pattern, compiled items, error flag. -/
structure LogFormatter where
  m_pattern : Str
  m_items : List LogFormatter.FormatItem
  m_error : Bool
  deriving DecidableEq, Repr

/-- The constructor `LogFormatter(pattern)`: stores the pattern and runs `init`. -/
def LogFormatter.new (pattern : Str) : Option LogFormatter :=
  (LogFormatter.init pattern).bind fun r =>
    some { m_pattern := pattern, m_items := r.1, m_error := r.2 }

/-! ## Handlers, loggers, events -/

/-- The two subclasses of `LogHandler`, with the members that name their sink. -/
inductive HandlerKind where
  | StdoutLogHandler
  | FileLogHandler (m_filename : Str)
  deriving DecidableEq, Repr

/-- The class `LogHandler`.  A `LogHandler::ptr` is a shared pointer: `addr`
is the identity of the object it points to, a null `m_formatter` is `none`. -/
structure LogHandler where
  addr : Nat
  kind : HandlerKind
  m_level : Level
  m_hasFormatter : Bool
  m_formatter : Option LogFormatter
  deriving DecidableEq, Repr

/-- The class `Logger`: `m_name`, `m_level`, `m_handlers`, `m_formatter`,
`m_root` (null is `none`). -/
inductive Logger where
  | mk (m_name : Str) (m_level : Level) (m_handlers : List LogHandler)
      (m_formatter : Option LogFormatter) (m_root : Option Logger)

namespace Logger

/-- The member `m_name` (`getName`). -/
def m_name : Logger → Str
  | .mk n _ _ _ _ => n

/-- The member `m_level` (`getLevel`). -/
def m_level : Logger → Level
  | .mk _ l _ _ _ => l

/-- The member `m_handlers`. -/
def m_handlers : Logger → List LogHandler
  | .mk _ _ hs _ _ => hs

/-- The member `m_formatter` (`getFormatter`). -/
def m_formatter : Logger → Option LogFormatter
  | .mk _ _ _ f _ => f

/-- The member `m_root`. -/
def m_root : Logger → Option Logger
  | .mk _ _ _ _ r => r

end Logger

/-- The class `LogEvent`.  The constructor leaves `m_level` unset, so it is an
arbitrary value here; `m_ss` is the content of the message stream; the event
is built with a non-null logger. -/
structure LogEvent where
  m_file : Str
  m_line : Int
  m_elapse : Nat
  m_threadId : Nat
  m_fiberId : Nat
  m_time : Nat
  m_threadName : Str
  m_ss : Str
  m_logger : Logger
  m_level : Level

/-- What `os << v` appends for an unsigned integer `v`: its decimal digits. -/
def showNat (v : Nat) : Str :=
  (Nat.repr v).toList

/-- What `os << v` appends for a signed integer `v`. -/
def showInt (v : Int) : Str :=
  match v with
  | Int.ofNat n => showNat n
  | Int.negSucc n => '-' :: showNat (n + 1)

/-! ## Output streams -/

/-- The `basefield` of a stream: `std::dec`, `std::oct` or `std::hex`. -/
inductive Basefield where
  | dec
  | oct
  | hex
  deriving DecidableEq, Repr

/-- The part of a `std::ostream` that the insertions of log.cc depend on: the
characters written so far, whether the stream is good (no failbit, badbit or
eofbit), and the formatting state `basefield`, `width` and `fill`.  The other
flags (`showbase`, `showpos`, `uppercase`, `adjustfield`) and the locale are
taken at their defaults. -/
structure OStream where
  buf : Str
  good : Bool
  basefield : Basefield
  width : Nat
  fill : Char
  deriving DecidableEq, Repr

namespace OStream

/-- A stream as `std::stringstream ss;` constructs it, which is also the state
`std::cout` starts in: empty, good, decimal, width 0, fill blank. -/
def fresh : OStream :=
  ⟨[], true, .dec, 0, ' '⟩

/-- The padding of a formatted insertion: fill characters in front of the text,
up to `width` characters in all. -/
def pad (width : Nat) (fill : Char) (s : Str) : Str :=
  List.replicate (width - s.length) fill ++ s

/-- The insertion `os << s` of a `std::string` or a C string: nothing on a
stream that is not good; otherwise the padded text, and `width` goes back
to 0. -/
def putStr (os : OStream) (s : Str) : OStream :=
  if os.good then { os with buf := os.buf ++ pad os.width os.fill s, width := 0 } else os

/-- The digits of an unsigned value in the base of the stream. -/
def showBase (b : Basefield) (v : Nat) : Str :=
  match b with
  | .dec => showNat v
  | .oct => Nat.toDigits 8 v
  | .hex => Nat.toDigits 16 v

/-- The insertion `os << v` of a `uint32_t`. -/
def putNat (os : OStream) (v : Nat) : OStream :=
  os.putStr (showBase os.basefield v)

/-- The insertion `os << v` of an `int32_t`: signed in decimal; in octal and
hexadecimal the value is converted to `unsigned int` first. -/
def putInt (os : OStream) (v : Int) : OStream :=
  match os.basefield with
  | .dec => os.putStr (showInt v)
  | .oct => os.putStr (showBase .oct (v % 4294967296).toNat)
  | .hex => os.putStr (showBase .hex (v % 4294967296).toNat)

/-- The insertion `os << std::endl`: an unformatted newline (no padding), then a
flush; nothing on a stream that is not good. -/
def endl (os : OStream) : OStream :=
  if os.good then { os with buf := os.buf ++ ['\n'] } else os

end OStream

/-- The virtual `FormatItem::format(os, logger, level, event)` of each
subclass: the stream `os` after the item has written its fragment. -/
def LogFormatter.FormatItem.format (strftime : Str → Nat → Str) (item : LogFormatter.FormatItem)
    (os : OStream) (_logger : Logger) (level : Level) (event : LogEvent) : OStream :=
  match item with
  | .MessageFormatItem => os.putStr event.m_ss
  | .LevelFormatItem => os.putStr (LogLevel.ToString level)
  | .ElapseFormatItem => os.putNat event.m_elapse
  | .NameFormatItem => os.putStr event.m_logger.m_name
  | .ThreadIdFormatItem => os.putNat event.m_threadId
  | .FiberIdFormatItem => os.putNat event.m_fiberId
  | .ThreadNameFormatItem => os.putStr event.m_threadName
  | .DateTimeFormatItem m_format => os.putStr (strftime m_format event.m_time)
  | .FilenameFormatItem => os.putStr event.m_file
  | .LineFormatItem => os.putInt event.m_line
  | .NewLineFormatItem => os.endl
  | .StringFormatItem m_string => os.putStr m_string
  | .TabFormatItem => os.putStr ['\t']

/-- The overload `LogFormatter::format(ofs, logger, level, event)`: every item
writes to the caller's stream `ofs` in turn; the stream is returned. -/
def LogFormatter.formatStream (strftime : Str → Nat → Str) (f : LogFormatter) (ofs : OStream)
    (logger : Logger) (level : Level) (event : LogEvent) : OStream :=
  f.m_items.foldl (fun os i => i.format strftime os logger level event) ofs

/-- The overload `LogFormatter::format(logger, level, event)`: the items write
to a fresh `std::stringstream`, whose content `ss.str()` is returned. -/
def LogFormatter.format (strftime : Str → Nat → Str) (f : LogFormatter)
    (logger : Logger) (level : Level) (event : LogEvent) : Str :=
  (f.m_items.foldl (fun ss i => i.format strftime ss logger level event) OStream.fresh).buf

/-- One write of a handler to its sink: the handler and the text inserted. -/
structure Write where
  handler : Nat
  text : Str
  deriving DecidableEq, Repr

/-- The virtual `LogHandler::log` (`FileLogHandler::log`,
`StdoutLogHandler::log`): below the handler's level nothing is written;
otherwise the formatter is dereferenced (a null formatter is `none`) and its
text goes to the file stream, respectively straight to `std::cout`.  No code
of the library changes the formatting state of `std::cout`, so the console
write is what the stream overload inserts into a stream in the starting
state. -/
def LogHandler.log (strftime : Str → Nat → Str) (h : LogHandler) (logger : Logger)
    (level : Level) (event : LogEvent) : Option (List Write) :=
  match h.kind with
  | .FileLogHandler _ =>
    if level.toNat ≥ h.m_level.toNat then
      h.m_formatter.bind fun f => some [⟨h.addr, f.format strftime logger level event⟩]
    else some []
  | .StdoutLogHandler =>
    if level.toNat ≥ h.m_level.toNat then
      h.m_formatter.bind fun f =>
        some [⟨h.addr, (f.formatStream strftime OStream.fresh logger level event).buf⟩]
    else some []

/-- The loop `for(auto& i : m_handlers) i->log(self, level, event)`. -/
def Logger.logHandlers (strftime : Str → Nat → Str) (self : Logger) (level : Level)
    (event : LogEvent) : List LogHandler → Option (List Write)
  | [] => some []
  | i :: rest =>
    (i.log strftime self level event).bind fun w =>
      (Logger.logHandlers strftime self level event rest).bind fun ws => some (w ++ ws)

/-- The function `Logger::log(level, event)`: the writes it performs, in order. -/
def Logger.log (strftime : Str → Nat → Str) : Logger → Level → LogEvent → Option (List Write)
  | .mk m_name m_level m_handlers m_formatter m_root, level, event =>
    if level.toNat ≥ m_level.toNat then
      if !m_handlers.isEmpty then
        Logger.logHandlers strftime (.mk m_name m_level m_handlers m_formatter m_root)
          level event m_handlers
      else
        match m_root with
        | some root => Logger.log strftime root level event
        | none => some []
    else some []

/-- The pattern literal in the constructor `Logger::Logger`. -/
def Logger.defaultPattern : Str :=
  "%d\x7b%Y-%m-%d %H:%M:%S\x7d%T%t%T%N%T%F%T[%p]%T[%c]%T%f:%l%T%m%n".toList

/-- The constructor `Logger(name)`: level DEBUG, no handler, no root, and
`m_formatter.reset(new LogFormatter(...))` with the default pattern. -/
def Logger.new (name : Str) : Option Logger :=
  (LogFormatter.new Logger.defaultPattern).bind
    fun f => some (.mk name .DEBUG [] (some f) none)

/-- The inline `LogHandler::setFormatter(val)`: assigns `m_formatter` and
nothing else. -/
def LogHandler.setFormatter (h : LogHandler) (val : Option LogFormatter) : LogHandler :=
  { h with m_formatter := val }

/-- The function `LogHandler::getFormatter`. -/
def LogHandler.getFormatter (h : LogHandler) : Option LogFormatter :=
  h.m_formatter

/-- The function `Logger::addHandler(handler)`: the logger after the call and
the handler object after the call.  A handler whose formatter pointer is null
is assigned the logger's `m_formatter`; then the pointer is pushed at the back.
The assignment goes through the shared pointer, so entries of `m_handlers` that
point to the same object (same `addr`) show it as well. -/
def Logger.addHandler : Logger → LogHandler → Logger × LogHandler
  | .mk m_name m_level m_handlers m_formatter m_root, handler =>
    let handler :=
      if handler.getFormatter.isNone then { handler with m_formatter := m_formatter }
      else handler
    (.mk m_name m_level
        (m_handlers.map (fun x => if x.addr = handler.addr then handler else x) ++ [handler])
        m_formatter m_root,
      handler)

/-- The loop of `Logger::delHandler`: the first entry that is the same pointer
as `handler` is erased and the loop stops. -/
def Logger.delHandlerLoop (handler : LogHandler) : List LogHandler → List LogHandler
  | [] => []
  | it :: rest =>
    if it.addr = handler.addr then rest
    else it :: Logger.delHandlerLoop handler rest

/-- The function `Logger::delHandler(handler)`. -/
def Logger.delHandler : Logger → LogHandler → Logger
  | .mk m_name m_level m_handlers m_formatter m_root, handler =>
    .mk m_name m_level (Logger.delHandlerLoop handler m_handlers) m_formatter m_root

/-- The inline `Logger::setLevel(val)` of log.h. -/
def Logger.setLevel : Logger → Level → Logger
  | .mk m_name _ m_handlers m_formatter m_root, val =>
    .mk m_name val m_handlers m_formatter m_root

/-- Modelled from the spec: the configuration of a logger's root logger.  The
data model gives a logger a `rootLogger`, an optional shared reference to a
fallback logger, and `Logger::log` reads `m_root`; the code that assigns
`m_root` is not in log.h or log.cc.  Configuring the root stores the reference
and changes nothing else. -/
def Logger.configureRoot : Logger → Logger → Logger
  | .mk m_name m_level m_handlers m_formatter _, root =>
    .mk m_name m_level m_handlers m_formatter (some root)

/-- A call made on a logger after its construction: `addHandler(handler)` or
`delHandler(handler)`, with the handler object as it is at the time of the
call. -/
inductive HandlerCall where
  | addHandler (handler : LogHandler)
  | delHandler (handler : LogHandler)
  deriving DecidableEq, Repr

/-- The logger after a sequence of `addHandler` and `delHandler` calls, made in
list order. -/
def Logger.calls : Logger → List HandlerCall → Logger
  | l, [] => l
  | l, .addHandler handler :: rest => Logger.calls (l.addHandler handler).1 rest
  | l, .delHandler handler :: rest => Logger.calls (l.delHandler handler) rest

/-! ## Concrete objects used in the worked examples -/

namespace Examples

/-- A date renderer for the worked examples: it returns the sub-pattern. -/
def strftime0 : Str → Nat → Str :=
  fun m_format _ => m_format

/-- A formatter that renders the message only (the compiled pattern `%m`). -/
def msgFormatter : LogFormatter :=
  ⟨"%m".toList, [.MessageFormatItem], false⟩

/-- A console handler at address 1 with threshold DEBUG. -/
def consoleHandler : LogHandler :=
  ⟨1, .StdoutLogHandler, .DEBUG, false, some msgFormatter⟩

/-- A file handler at address 2 with threshold ERROR. -/
def fileHandler : LogHandler :=
  ⟨2, .FileLogHandler "log.txt".toList, .ERROR, false, some msgFormatter⟩

/-- A root logger with threshold DEBUG and the console handler. -/
def rootLogger : Logger :=
  .mk "root".toList .DEBUG [consoleHandler] (some msgFormatter) none

/-- A logger with threshold WARN, the console and the file handler, no root. -/
def warnLogger : Logger :=
  .mk "app".toList .WARN [consoleHandler, fileHandler] (some msgFormatter) none

/-- A logger with threshold WARN, no handler, and `rootLogger` as its root. -/
def childLogger : Logger :=
  .mk "child".toList .WARN [] (some msgFormatter) (some rootLogger)

/-- An event of `childLogger` with message `hi`. -/
def event0 : LogEvent :=
  ⟨"x.cc".toList, 10, 0, 1, 2, 0, "main".toList, "hi".toList, childLogger, .UNKNOW⟩

/-- A formatter that renders a tab only (the compiled pattern `%T`). -/
def tabFormatter : LogFormatter :=
  ⟨"%T".toList, [.TabFormatItem], false⟩

/-- A console handler at address 3 on which nothing has been set. -/
def bareHandler : LogHandler :=
  ⟨3, .StdoutLogHandler, .DEBUG, false, none⟩

/-- An event whose stored level is FATAL. -/
def eventFatal : LogEvent :=
  ⟨"x.cc".toList, 10, 0, 1, 2, 0, "main".toList, "hi".toList, childLogger, .FATAL⟩

/-- A formatter that renders the logger name only (the compiled pattern `%c`). -/
def nameFormatter : LogFormatter :=
  ⟨"%c".toList, [.NameFormatItem], false⟩

/-- A console handler at address 4 with the name formatter. -/
def nameHandler : LogHandler :=
  ⟨4, .StdoutLogHandler, .DEBUG, false, some nameFormatter⟩

/-- A root logger named `root` whose only handler renders the logger name. -/
def nameRoot : Logger :=
  .mk "root".toList .DEBUG [nameHandler] (some nameFormatter) none

/-- A logger named `child` with no handler and `nameRoot` as its root. -/
def nameChild : Logger :=
  .mk "child".toList .DEBUG [] (some nameFormatter) (some nameRoot)

/-- An event built with `nameChild` as its logger. -/
def eventOfChild : LogEvent :=
  ⟨"x.cc".toList, 10, 0, 1, 2, 0, "main".toList, "hi".toList, nameChild, .UNKNOW⟩

/-- The formatter that `Logger::Logger` compiles from the default pattern. -/
def defaultFormatter : LogFormatter :=
  ⟨Logger.defaultPattern,
    [.DateTimeFormatItem "%Y-%m-%d %H:%M:%S".toList, .TabFormatItem, .ThreadIdFormatItem,
      .TabFormatItem, .ThreadNameFormatItem, .TabFormatItem, .FiberIdFormatItem,
      .TabFormatItem, .StringFormatItem ['['], .LevelFormatItem, .StringFormatItem [']'],
      .TabFormatItem, .StringFormatItem ['['], .NameFormatItem, .StringFormatItem [']'],
      .TabFormatItem, .FilenameFormatItem, .StringFormatItem [':'], .LineFormatItem,
      .TabFormatItem, .MessageFormatItem, .NewLineFormatItem], false⟩

/-- The logger that `new Logger("root")` constructs. -/
def newRoot : Logger :=
  .mk "root".toList .DEBUG [] (some defaultFormatter) none

/-- The logger that `new Logger("child")` constructs. -/
def newChild : Logger :=
  .mk "child".toList .DEBUG [] (some defaultFormatter) none

/-- The constructed root logger after `addHandler` of the console handler. -/
def rootWithConsole : Logger :=
  (newRoot.addHandler consoleHandler).1

/-- The constructed child logger after `setLevel(WARN)`, with
`rootWithConsole` configured as its root. -/
def childOfRoot : Logger :=
  (newChild.setLevel .WARN).configureRoot rootWithConsole

/-- An event built with `childOfRoot` as its logger, with message `hi`. -/
def eventOfBuiltChild : LogEvent :=
  ⟨"x.cc".toList, 10, 0, 1, 2, 0, "main".toList, "hi".toList, childOfRoot, .UNKNOW⟩

end Examples

/-! ## Theorems -/

section Basic

open LogFormatter LogFormatter.FormatItem

/-- On a good stream with no pending width a string insertion appends the
text and leaves the state as it is. -/
theorem OStream.putStr_plain (b : Str) (bf : Basefield) (c : Char) (s : Str) :
    OStream.putStr ⟨b, true, bf, 0, c⟩ s = ⟨b ++ s, true, bf, 0, c⟩ := by
  simp [OStream.putStr, OStream.pad]

/-- On a good decimal stream with no pending width an unsigned insertion
appends the decimal digits. -/
theorem OStream.putNat_plain (b : Str) (c : Char) (v : Nat) :
    OStream.putNat ⟨b, true, .dec, 0, c⟩ v = ⟨b ++ showNat v, true, .dec, 0, c⟩ := by
  simp [OStream.putNat, OStream.showBase, OStream.putStr_plain]

/-- On a good decimal stream with no pending width a signed insertion appends
the signed decimal digits. -/
theorem OStream.putInt_plain (b : Str) (c : Char) (v : Int) :
    OStream.putInt ⟨b, true, .dec, 0, c⟩ v = ⟨b ++ showInt v, true, .dec, 0, c⟩ := by
  simp [OStream.putInt, OStream.putStr_plain]

/-- On a good stream `std::endl` appends a newline. -/
theorem OStream.endl_plain (b : Str) (bf : Basefield) (w : Nat) (c : Char) :
    OStream.endl ⟨b, true, bf, w, c⟩ = ⟨b ++ ['\n'], true, bf, w, c⟩ := by
  simp [OStream.endl]

/-- On a good decimal stream with no pending width every item appends the text
it writes to a fresh stream and leaves the state as it is. -/
theorem FormatItem.format_plain (strftime : Str → Nat → Str) (item : FormatItem)
    (b : Str) (c : Char) (logger : Logger) (level : Level) (event : LogEvent) :
    item.format strftime ⟨b, true, .dec, 0, c⟩ logger level event
      = ⟨b ++ (item.format strftime OStream.fresh logger level event).buf, true, .dec, 0, c⟩ := by
  cases item <;>
    simp [FormatItem.format, OStream.fresh, OStream.putStr_plain, OStream.putNat_plain,
      OStream.putInt_plain, OStream.endl_plain]

/-- On a good decimal stream with no pending width the item loop appends the
text it writes to a fresh stream and leaves the state as it is. -/
theorem LogFormatter.foldl_format_plain (strftime : Str → Nat → Str) (logger : Logger)
    (level : Level) (event : LogEvent) :
    ∀ (items : List FormatItem) (b : Str) (c : Char),
      items.foldl (fun os i => i.format strftime os logger level event) ⟨b, true, .dec, 0, c⟩
        = ⟨b ++ (items.foldl (fun os i => i.format strftime os logger level event)
              OStream.fresh).buf, true, .dec, 0, c⟩ := by
  intro items
  induction items with
  | nil => intro b c; simp [OStream.fresh]
  | cons a t ih =>
    intro b c
    simp only [List.foldl_cons]
    rw [FormatItem.format_plain strftime a b c]
    have hfresh : a.format strftime OStream.fresh logger level event
        = ⟨[] ++ (a.format strftime OStream.fresh logger level event).buf, true, .dec, 0, ' '⟩ :=
      FormatItem.format_plain strftime a [] ' ' logger level event
    rw [ih, hfresh, ih]
    simp

/-- Claim C7, as the code has it: `LogLevel::ToString` maps DEBUG, INFO, WARN,
ERROR and FATAL to their names, and the level of value 0 (the enumerator
`UNKNOW`) to the text "UNKNOW". -/
theorem LogLevel.ToString_names :
    LogLevel.ToString .UNKNOW = "UNKNOW".toList ∧
    LogLevel.ToString .DEBUG = "DEBUG".toList ∧
    LogLevel.ToString .INFO = "INFO".toList ∧
    LogLevel.ToString .WARN = "WARN".toList ∧
    LogLevel.ToString .ERROR = "ERROR".toList ∧
    LogLevel.ToString .FATAL = "FATAL".toList ∧
    Level.toNat .UNKNOW = 0 := by
  decide

/-- Claim C7 as stated fails: the level of value 0 is not rendered as
"UNKNOWN". -/
theorem LogLevel.ToString_unknown_ne :
    Level.toNat .UNKNOW = 0 ∧ LogLevel.ToString .UNKNOW ≠ "UNKNOWN".toList := by
  decide

/-- Claim C1 at the pattern `%%`: the first `%` goes to the pending literal,
then the scan resumes at the second `%`, which opens a directive with an empty
name.  The formatter has `m_error` set and renders `%<<error_format %>>`, not
the single `%` of the escape. -/
theorem LogFormatter.percent_escape_rendered (strftime : Str → Nat → Str) (logger : Logger)
    (level : Level) (event : LogEvent) :
    LogFormatter.new "%%".toList
        = some ⟨"%%".toList,
            [.StringFormatItem "%".toList, .StringFormatItem "<<error_format %>>".toList], true⟩ ∧
      (LogFormatter.new "%%".toList).map (fun f => f.format strftime logger level event)
        = some "%<<error_format %>>".toList ∧
      "%<<error_format %>>".toList ≠ "%".toList := by
  refine ⟨by decide, ?_, by decide⟩
  have h : LogFormatter.new "%%".toList
        = some ⟨"%%".toList,
            [.StringFormatItem "%".toList, .StringFormatItem "<<error_format %>>".toList], true⟩ := by
    decide
  rw [h]
  rfl

/-- Claim C2: the default pattern compiles without error, `Logger::Logger`
installs the compiled formatter, and for every event it renders the date, tab,
thread id, tab, thread name, tab, fiber id, tab, `[`level name`]`, tab,
`[`logger name`]`, tab, file`:`line, tab, message, newline; the fixed event of
the specification gives `<date>\t1\tmain\t2\t[DEBUG]\t[root]\tx.cc:10\thello\n`. -/
theorem LogFormatter.default_pattern_render (strftime : Str → Nat → Str) :
    ∃ f : LogFormatter,
      LogFormatter.new Logger.defaultPattern = some f ∧
      f.m_error = false ∧
      (∀ name, (Logger.new name).bind Logger.m_formatter = some f) ∧
      (∀ (logger : Logger) (level : Level) (event : LogEvent),
        f.format strftime logger level event
          = strftime "%Y-%m-%d %H:%M:%S".toList event.m_time ++ ['\t']
              ++ showNat event.m_threadId ++ ['\t']
              ++ event.m_threadName ++ ['\t']
              ++ showNat event.m_fiberId ++ ['\t']
              ++ ['['] ++ LogLevel.ToString level ++ [']'] ++ ['\t']
              ++ ['['] ++ event.m_logger.m_name ++ [']'] ++ ['\t']
              ++ event.m_file ++ [':'] ++ showInt event.m_line ++ ['\t']
              ++ event.m_ss ++ ['\n']) ∧
      (∀ (logger : Logger) (T : Nat) (evLevel : Level),
        f.format strftime logger .DEBUG
            ⟨"x.cc".toList, 10, 0, 1, 2, T, "main".toList, "hello".toList,
              .mk "root".toList .DEBUG [] (some f) none, evLevel⟩
          = strftime "%Y-%m-%d %H:%M:%S".toList T
              ++ "\t1\tmain\t2\t[DEBUG]\t[root]\tx.cc:10\thello\n".toList) := by
  have hnew : LogFormatter.new Logger.defaultPattern = some
      ⟨Logger.defaultPattern,
        [.DateTimeFormatItem "%Y-%m-%d %H:%M:%S".toList, .TabFormatItem, .ThreadIdFormatItem,
          .TabFormatItem, .ThreadNameFormatItem, .TabFormatItem, .FiberIdFormatItem,
          .TabFormatItem, .StringFormatItem ['['], .LevelFormatItem, .StringFormatItem [']'],
          .TabFormatItem, .StringFormatItem ['['], .NameFormatItem, .StringFormatItem [']'],
          .TabFormatItem, .FilenameFormatItem, .StringFormatItem [':'], .LineFormatItem,
          .TabFormatItem, .MessageFormatItem, .NewLineFormatItem], false⟩ := by
    rfl
  refine ⟨_, hnew, rfl, ?_, ?_, ?_⟩
  · intro name
    simp only [Logger.new, hnew, Option.some_bind, Option.bind_some, Logger.m_formatter]
  · intro logger level event
    simp [LogFormatter.format, LogFormatter.FormatItem.format, OStream.fresh,
      OStream.putStr_plain, OStream.putNat_plain, OStream.putInt_plain, OStream.endl_plain]
  · intro logger T evLevel
    simp only [LogFormatter.format, LogFormatter.FormatItem.format, List.foldl_cons,
      List.foldl_nil, List.nil_append, Logger.m_name, OStream.fresh, OStream.putStr_plain,
      OStream.putNat_plain, OStream.putInt_plain, OStream.endl_plain]
    have h1 : showNat 1 = ['1'] := by decide
    have h2 : showNat 2 = ['2'] := by decide
    have h10 : showInt 10 = ['1', '0'] := by decide
    rw [h1, h2, h10]
    simp [LogLevel.ToString]

/-- Claim C3: each of the twelve one-directive patterns compiles, without
error, to exactly one item, of the documented variant (`%d` with the default
date sub-pattern); `%n` renders one newline and `%T` one tab. -/
theorem LogFormatter.init_single_directive (strftime : Str → Nat → Str) (logger : Logger)
    (level : Level) (event : LogEvent) :
    init "%m".toList = some ([.MessageFormatItem], false) ∧
    init "%p".toList = some ([.LevelFormatItem], false) ∧
    init "%r".toList = some ([.ElapseFormatItem], false) ∧
    init "%c".toList = some ([.NameFormatItem], false) ∧
    init "%t".toList = some ([.ThreadIdFormatItem], false) ∧
    init "%n".toList = some ([.NewLineFormatItem], false) ∧
    init "%d".toList = some ([.DateTimeFormatItem "%Y-%m-%d %H:%M:%S".toList], false) ∧
    init "%f".toList = some ([.FilenameFormatItem], false) ∧
    init "%l".toList = some ([.LineFormatItem], false) ∧
    init "%T".toList = some ([.TabFormatItem], false) ∧
    init "%F".toList = some ([.FiberIdFormatItem], false) ∧
    init "%N".toList = some ([.ThreadNameFormatItem], false) ∧
    (LogFormatter.new "%n".toList).map (fun f => f.format strftime logger level event)
      = some ['\n'] ∧
    (LogFormatter.new "%T".toList).map (fun f => f.format strftime logger level event)
      = some ['\t'] := by
  refine ⟨by decide, by decide, by decide, by decide, by decide, by decide, by decide,
    by decide, by decide, by decide, by decide, by decide, ?_, ?_⟩
  · have h : LogFormatter.new "%n".toList = some ⟨"%n".toList, [.NewLineFormatItem], false⟩ := by
      decide
    rw [h]; rfl
  · have h : LogFormatter.new "%T".toList = some ⟨"%T".toList, [.TabFormatItem], false⟩ := by
      decide
    rw [h]; rfl

/-- The two `format` overloads start from the same loop: on a fresh stream the
stream overload produces the text of the other one. -/
theorem LogFormatter.formatStream_fresh (strftime : Str → Nat → Str) (f : LogFormatter)
    (logger : Logger) (level : Level) (event : LogEvent) :
    (f.formatStream strftime OStream.fresh logger level event).buf
      = f.format strftime logger level event :=
  rfl

/-- A handler below its threshold writes nothing, whatever its formatter; at or
above it, a handler with formatter `f` writes the text of `f` once. -/
theorem LogHandler.log_eq (strftime : Str → Nat → Str) (h : LogHandler) (f : LogFormatter)
    (logger : Logger) (level : Level) (event : LogEvent)
    (hf : h.m_level.toNat ≤ level.toNat → h.m_formatter = some f) :
    h.log strftime logger level event
      = some (if h.m_level.toNat ≤ level.toNat
          then [⟨h.addr, f.format strftime logger level event⟩] else []) := by
  unfold LogHandler.log
  by_cases hl : h.m_level.toNat ≤ level.toNat
  · cases hk : h.kind <;> simp [hf hl, hl, LogFormatter.formatStream_fresh]
  · cases hk : h.kind <;> simp [hl]

/-- The handler loop writes, in list order, to the handlers whose threshold is
at most `level`. -/
theorem Logger.logHandlers_eq (strftime : Str → Nat → Str) (self : Logger) (level : Level)
    (event : LogEvent) (fmt : LogHandler → LogFormatter) (hs : List LogHandler)
    (hfmt : ∀ h ∈ hs, h.m_level.toNat ≤ level.toNat → h.m_formatter = some (fmt h)) :
    Logger.logHandlers strftime self level event hs
      = some ((hs.filter (fun h => decide (h.m_level.toNat ≤ level.toNat))).map
          (fun h => ⟨h.addr, (fmt h).format strftime self level event⟩)) := by
  induction hs with
  | nil => rfl
  | cons h rest ih =>
    have hh := hfmt h (List.mem_cons_self _ _)
    have hrest : ∀ x ∈ rest, x.m_level.toNat ≤ level.toNat → x.m_formatter = some (fmt x) :=
      fun x hx => hfmt x (List.mem_cons_of_mem _ hx)
    simp only [Logger.logHandlers, LogHandler.log_eq strftime h (fmt h) self level event hh,
      ih hrest, Option.some_bind, List.filter_cons]
    by_cases hl : h.m_level.toNat ≤ level.toNat <;> simp [hl]

/-- Claim C8: an event whose level is strictly below the logger's threshold
is dropped by `Logger::log`: the call completes with no write at all, neither
on the logger's handlers nor through the root logger. -/
theorem Logger.log_below_threshold (strftime : Str → Nat → Str) (l : Logger) (level : Level)
    (event : LogEvent) (h : level.toNat < l.m_level.toNat) :
    l.log strftime level event = some [] := by
  cases l with
  | mk m_name m_level m_handlers m_formatter m_root =>
    simp only [Logger.m_level] at h
    unfold Logger.log
    simp [Nat.not_le.mpr h]

/-- Claim C9: with a non-empty handler list and a level at or above the
logger's threshold, `Logger::log` performs one write per handler whose own
threshold is at most the level, in registration order, each with the text of
that handler's formatter (`fmt h`, which the handlers that are written to must
have); a handler with a higher threshold gets nothing and does not stop the
later ones. -/
theorem Logger.log_fanout (strftime : Str → Nat → Str) (l : Logger) (level : Level)
    (event : LogEvent) (fmt : LogHandler → LogFormatter)
    (hne : l.m_handlers ≠ [])
    (hfmt : ∀ h ∈ l.m_handlers, h.m_level.toNat ≤ level.toNat → h.m_formatter = some (fmt h))
    (hlevel : l.m_level.toNat ≤ level.toNat) :
    l.log strftime level event
      = some ((l.m_handlers.filter (fun h => decide (h.m_level.toNat ≤ level.toNat))).map
          (fun h => ⟨h.addr, (fmt h).format strftime l level event⟩)) := by
  cases l with
  | mk m_name m_level m_handlers m_formatter m_root =>
    simp only [Logger.m_handlers, Logger.m_level] at hne hfmt hlevel
    unfold Logger.log
    have hemp : m_handlers.isEmpty = false := by
      cases m_handlers with
      | nil => exact absurd rfl hne
      | cons a t => rfl
    simp only [ge_iff_le, hlevel, if_true, hemp, Bool.not_false, Logger.m_handlers]
    exact Logger.logHandlers_eq strftime _ level event fmt m_handlers hfmt

/-- Claim C10, amended: a logger with no handler and a configured root logger
hands an event whose level is at or above its own threshold to the root
logger, so the writes are those of logging the event on the root directly. -/
theorem Logger.log_delegates (strftime : Str → Nat → Str) (l root : Logger) (level : Level)
    (event : LogEvent) (hempty : l.m_handlers = [])
    (hlevel : l.m_level.toNat ≤ level.toNat) :
    (l.configureRoot root).m_handlers = [] ∧
      (l.configureRoot root).m_root = some root ∧
      (l.configureRoot root).log strftime level event = root.log strftime level event := by
  cases l with
  | mk m_name m_level m_handlers m_formatter m_root =>
    simp only [Logger.m_handlers, Logger.m_level] at hempty hlevel
    subst hempty
    refine ⟨rfl, rfl, ?_⟩
    simp only [Logger.configureRoot]
    conv_lhs => unfold Logger.log
    simp [hlevel]

/-- Claim C8 at threshold WARN with two handlers: an INFO event is dropped. -/
theorem Logger.log_below_threshold_witness :
    Level.toNat .INFO < Examples.warnLogger.m_level.toNat ∧
      Examples.warnLogger.log Examples.strftime0 .INFO Examples.event0 = some [] :=
  ⟨by decide,
    Logger.log_below_threshold Examples.strftime0 Examples.warnLogger .INFO Examples.event0
      (by decide)⟩

/-- Claim C9 on the two-handler logger: a FATAL event is written once to each
handler, in registration order; a WARN event reaches the console handler only,
the file handler (threshold ERROR) being skipped. -/
theorem Logger.log_fanout_witness :
    Examples.warnLogger.log Examples.strftime0 .FATAL Examples.event0
        = some [⟨1, "hi".toList⟩, ⟨2, "hi".toList⟩] ∧
      Examples.warnLogger.log Examples.strftime0 .WARN Examples.event0
        = some [⟨1, "hi".toList⟩] :=
  ⟨Logger.log_fanout Examples.strftime0 Examples.warnLogger .FATAL Examples.event0
      (fun _ => Examples.msgFormatter) (by decide) (by decide) (by decide),
    Logger.log_fanout Examples.strftime0 Examples.warnLogger .WARN Examples.event0
      (fun _ => Examples.msgFormatter) (by decide) (by decide) (by decide)⟩

/-- Claim C10 as stated fails.  The loggers are built by the constructor,
`addHandler`, `setLevel` and the configuration of the root: the child logger
(threshold WARN, no handler, root configured) drops an INFO event, while its
root (threshold DEBUG) writes it when called directly. -/
theorem Logger.root_not_consulted_below_threshold :
    Logger.new "root".toList = some Examples.newRoot ∧
      Logger.new "child".toList = some Examples.newChild ∧
      LogFormatter.new "%m".toList = some Examples.msgFormatter ∧
      Examples.childOfRoot.m_handlers = [] ∧
      Examples.childOfRoot.m_root = some Examples.rootWithConsole ∧
      Examples.childOfRoot.log Examples.strftime0 .INFO Examples.eventOfBuiltChild = some [] ∧
      Examples.rootWithConsole.log Examples.strftime0 .INFO Examples.eventOfBuiltChild
        = some [⟨1, "hi".toList⟩] ∧
      Examples.childOfRoot.log Examples.strftime0 .INFO Examples.eventOfBuiltChild
        ≠ Examples.rootWithConsole.log Examples.strftime0 .INFO Examples.eventOfBuiltChild :=
  ⟨rfl, rfl, by decide, rfl, rfl, by decide, by decide, by decide⟩

/-- Claim C10, amended, at a WARN event: the child logger built as above and
its root produce the same write. -/
theorem Logger.log_delegates_witness :
    (Examples.newChild.setLevel .WARN).m_handlers = [] ∧
      (Examples.newChild.setLevel .WARN).m_level.toNat ≤ Level.toNat .WARN ∧
      Examples.childOfRoot.log Examples.strftime0 .WARN Examples.eventOfBuiltChild
        = Examples.rootWithConsole.log Examples.strftime0 .WARN Examples.eventOfBuiltChild ∧
      Examples.rootWithConsole.log Examples.strftime0 .WARN Examples.eventOfBuiltChild
        = some [⟨1, "hi".toList⟩] :=
  ⟨rfl, by decide,
    (Logger.log_delegates Examples.strftime0 (Examples.newChild.setLevel .WARN)
      Examples.rootWithConsole .WARN Examples.eventOfBuiltChild rfl (by decide)).2.2,
    by decide⟩

end Basic

section Compiler

open LogFormatter LogFormatter.FormatItem

/-- With the `%` inside the pattern, the tail of the loop body succeeds: `n`
grows by one, and the name becomes the rest of the pattern when the end is
reached with no name set. -/
theorem LogFormatter.scanAdvance_eq (p : Str) (i : Nat) (hi : i + 1 ≤ p.length) (s : ScanState) :
    scanAdvance p i s
      = some { s with
          n := s.n + 1,
          str := if s.n + 1 = p.length ∧ s.str.isEmpty = true then p.drop (i + 1) else s.str } := by
  unfold scanAdvance substrFrom
  by_cases h1 : s.n + 1 = p.length <;> by_cases h2 : s.str.isEmpty = true <;> simp [h1, h2, hi]

/-- Inside an argument whose closing brace never comes, the inner loop runs to
the end of the pattern and stays in state 1. -/
theorem LogFormatter.scanDirective_unclosed (p : Str) (i : Nat) (hi : i + 1 ≤ p.length) :
    ∀ (fuel : Nat) (s : ScanState), s.fmt_status = 1 →
      (∀ k, s.n ≤ k → p[k]? ≠ some '}') → p.length - s.n < fuel →
      ∃ s', scanDirective p i fuel s = some s' ∧ s'.fmt_status = 1 ∧ s'.fmt = s.fmt := by
  intro fuel
  induction fuel with
  | zero => intro s _ _ hf; omega
  | succ fuel ih =>
    intro s hs hno hf
    unfold scanDirective
    by_cases hn : s.n < p.length
    · have hc : p[s.n]? = some p[s.n] := List.getElem?_eq_getElem hn
      have hne : p[s.n] ≠ '}' := fun h => hno s.n le_rfl (by rw [hc, h])
      simp only [hn, if_true, hc, Option.some_bind, hs, one_ne_zero, false_and, if_false, hne,
        LogFormatter.scanAdvance_eq p i hi]
      obtain ⟨s', h1, h2, h3⟩ := ih
        { n := s.n + 1, fmt_status := 1, fmt_begin := s.fmt_begin,
          str := if s.n + 1 = p.length ∧ s.str.isEmpty = true then p.drop (i + 1) else s.str,
          fmt := s.fmt }
        rfl (fun k hk => hno k (by simp only at hk; omega)) (by simp only; omega)
      exact ⟨s', h1, h2, h3⟩
    · simp only [hn, if_false]
      exact ⟨s, rfl, hs, rfl⟩

/-- The inner loop always returns: started after the `%` and within the
pattern, it stops at an index between its start and the end of the pattern. -/
theorem LogFormatter.scanDirective_total (p : Str) (i : Nat) (hi : i + 1 ≤ p.length) :
    ∀ (fuel : Nat) (s : ScanState), s.n ≤ p.length →
      (s.fmt_status = 1 → s.fmt_begin < s.n) → p.length - s.n < fuel →
      ∃ s', scanDirective p i fuel s = some s' ∧ s.n ≤ s'.n ∧ s'.n ≤ p.length := by
  intro fuel
  induction fuel with
  | zero => intro s _ _ hf; omega
  | succ fuel ih =>
    intro s hle hb hf
    unfold scanDirective
    by_cases hn : s.n < p.length
    · have hc : p[s.n]? = some p[s.n] := List.getElem?_eq_getElem hn
      simp only [hn, if_true, hc, Option.some_bind, LogFormatter.scanAdvance_eq p i hi]
      have hadv := ih
        { s with
          n := s.n + 1,
          str := if s.n + 1 = p.length ∧ s.str.isEmpty = true then p.drop (i + 1) else s.str }
        (by simp only; omega) (fun h => by simp only at h ⊢; have := hb h; omega)
        (by simp only; omega)
      have hadv' : ∃ s', scanDirective p i fuel
          { s with
            n := s.n + 1,
            str := if s.n + 1 = p.length ∧ s.str.isEmpty = true then p.drop (i + 1) else s.str }
            = some s' ∧ s.n ≤ s'.n ∧ s'.n ≤ p.length := by
        obtain ⟨s', h1, h2, h3⟩ := hadv
        exact ⟨s', h1, by simp only at h2; omega, h3⟩
      have hsub : ∀ len, substr p (i + 1) len = some ((p.drop (i + 1)).take len) := by
        intro len; simp [substr, hi]
      split
      · rw [hsub]; exact ⟨_, rfl, le_rfl, hle⟩
      · split
        · split
          · rw [hsub]
            simp only [Option.some_bind]
            obtain ⟨s', h1, h2, h3⟩ := ih
              { s with
                str := (p.drop (i + 1)).take (s.n - i - 1), fmt_status := 1,
                fmt_begin := s.n, n := s.n + 1 }
              (by simp only; omega) (fun _ => by simp only; omega) (by simp only; omega)
            exact ⟨s', h1, by simp only at h2; omega, h3⟩
          · exact hadv'
        · split
          · rename_i h1
            split
            · have hb' := hb h1
              have : substr p (s.fmt_begin + 1) (s.n - s.fmt_begin - 1)
                  = some ((p.drop (s.fmt_begin + 1)).take (s.n - s.fmt_begin - 1)) := by
                simp only [substr]; rw [if_pos (by omega)]
              rw [this]
              exact ⟨_, rfl, by simp only; omega, by simp only; omega⟩
            · exact hadv'
          · exact hadv'
    · simp only [hn, if_false]
      exact ⟨s, rfl, le_rfl, hle⟩

/-- The outer loop always returns, it only appends to `vec`, and it never
clears `m_error`. -/
theorem LogFormatter.initLoop_total (p : Str) :
    ∀ (fuel i : Nat) (st : InitState), p.length - i < fuel →
      ∃ st', initLoop p fuel i st = some st' ∧ st.vec <+: st'.vec ∧
        (st.m_error = true → st'.m_error = true) := by
  intro fuel
  induction fuel with
  | zero => intro i st hf; omega
  | succ fuel ih =>
    intro i st hf
    unfold initLoop
    by_cases hi : i < p.length
    · have hc : p[i]? = some p[i] := List.getElem?_eq_getElem hi
      simp only [hi, if_true, hc, Option.some_bind]
      by_cases hpc : p[i] = '%'
      · simp only [hpc, ne_eq, not_true_eq_false, if_false]
        have he : ∃ e, (if i + 1 < p.length then
            p[i + 1]?.bind fun c1 => some (decide (c1 = '%')) else some false) = some e := by
          by_cases h1 : i + 1 < p.length
          · rw [if_pos h1, List.getElem?_eq_getElem h1]; exact ⟨_, rfl⟩
          · rw [if_neg h1]; exact ⟨_, rfl⟩
        obtain ⟨e, he⟩ := he
        rw [he]
        simp only [Option.some_bind]
        cases e with
        | true =>
          simp only [if_true]
          obtain ⟨st', h1, h2, h3⟩ := ih (i + 1) { st with nstr := st.nstr ++ ['%'] } (by omega)
          exact ⟨st', h1, h2, h3⟩
        | false =>
          simp only [Bool.false_eq_true, if_false]
          obtain ⟨s', hs1, hs2, hs3⟩ := LogFormatter.scanDirective_total p i (by omega)
            (p.length + 1) ⟨i + 1, 0, 0, [], []⟩ (by simp only; omega)
            (fun h => by simp at h) (by simp only; omega)
          simp only at hs2
          rw [hs1]
          simp only [Option.some_bind]
          split
          · obtain ⟨st', h1, h2, h3⟩ := ih (s'.n - 1 + 1)
              { nstr := if (!st.nstr.isEmpty) = true then [] else st.nstr,
                vec := (if (!st.nstr.isEmpty) = true then st.vec ++ [⟨st.nstr, [], 0⟩]
                  else st.vec) ++ [⟨s'.str, s'.fmt, 1⟩],
                m_error := st.m_error } (by omega)
            refine ⟨st', h1, List.IsPrefix.trans ?_ h2, h3⟩
            simp only
            split
            · rw [List.append_assoc]; exact List.prefix_append _ _
            · exact List.prefix_append _ _
          · split
            · have hsf : substrFrom p i = some (p.drop i) := by
                simp only [substrFrom]; rw [if_pos (by omega)]
              rw [hsf]
              simp only [Option.some_bind]
              obtain ⟨st', h1, h2, h3⟩ := ih (i + 1)
                { st with m_error := true,
                          vec := st.vec ++ [⟨"<<pattern_error>>".toList, s'.fmt, 0⟩] } (by omega)
              exact ⟨st', h1, List.IsPrefix.trans (List.prefix_append _ _) h2, fun _ => h3 rfl⟩
            · obtain ⟨st', h1, h2, h3⟩ := ih (i + 1) st (by omega)
              exact ⟨st', h1, h2, h3⟩
      · simp only [ne_eq, hpc, not_false_eq_true, if_true]
        obtain ⟨st', h1, h2, h3⟩ := ih (i + 1) { st with nstr := st.nstr ++ [p[i]] } (by omega)
        exact ⟨st', h1, h2, h3⟩
    · simp only [hi, if_false]
      exact ⟨st, rfl, List.prefix_refl _, id⟩

/-- The item loop keeps the items it already has. -/
theorem LogFormatter.buildItems_mem_acc (x : FormatItem) :
    ∀ (vec : List Tok) (m_items : List FormatItem) (m_error : Bool), x ∈ m_items →
      x ∈ (buildItems vec (m_items, m_error)).1 := by
  intro vec
  induction vec with
  | nil => intro m_items m_error h; exact h
  | cons t vec ih =>
    intro m_items m_error h
    unfold buildItems
    split
    · exact ih _ _ (List.mem_append_left _ h)
    · split
      · exact ih _ _ (List.mem_append_left _ h)
      · exact ih _ _ (List.mem_append_left _ h)

/-- The item loop never clears `m_error`. -/
theorem LogFormatter.buildItems_error :
    ∀ (vec : List Tok) (m_items : List FormatItem), (buildItems vec (m_items, true)).2 = true := by
  intro vec
  induction vec with
  | nil => intro m_items; rfl
  | cons t vec ih =>
    intro m_items
    unfold buildItems
    split
    · exact ih _
    · split
      · exact ih _
      · exact ih _

/-- A literal entry of `vec` becomes a literal item. -/
theorem LogFormatter.buildItems_mem_literal (str fmt : Str) :
    ∀ (vec : List Tok) (m_items : List FormatItem) (m_error : Bool),
      (⟨str, fmt, 0⟩ : Tok) ∈ vec →
      FormatItem.StringFormatItem str ∈ (buildItems vec (m_items, m_error)).1 := by
  intro vec
  induction vec with
  | nil => intro m_items m_error h; simp at h
  | cons t vec ih =>
    intro m_items m_error h
    rcases List.mem_cons.mp h with h | h
    · subst h
      unfold buildItems
      simp only [if_true]
      exact LogFormatter.buildItems_mem_acc _ _ _ _ (by simp)
    · unfold buildItems
      split
      · exact ih _ _ h
      · split
        · exact ih _ _ h
        · exact ih _ _ h

/-- On a stretch without `%` the outer loop only extends the pending literal. -/
theorem LogFormatter.initLoop_literal (p : Str) :
    ∀ (fuel i : Nat) (st : InitState), (∀ k, i ≤ k → p[k]? ≠ some '%') → p.length - i < fuel →
      initLoop p fuel i st = some { st with nstr := st.nstr ++ p.drop i } := by
  intro fuel
  induction fuel with
  | zero => intro i st _ hf; omega
  | succ fuel ih =>
    intro i st hno hf
    unfold initLoop
    by_cases hi : i < p.length
    · have hc : p[i]? = some p[i] := List.getElem?_eq_getElem hi
      have hne : p[i] ≠ '%' := fun h => hno i le_rfl (by rw [hc, h])
      simp only [hi, if_true, hc, Option.some_bind, ne_eq, hne, not_false_eq_true]
      rw [ih (i + 1) _ (fun k hk => hno k (by omega)) (by omega)]
      have hd : p.drop i = p[i] :: p.drop (i + 1) := List.drop_eq_getElem_cons hi
      rw [hd, List.append_assoc, List.singleton_append]
    · simp only [hi, if_false]
      have hd : p.drop i = [] := List.drop_eq_nil_of_le (by omega)
      simp [hd]

/-- A letter differs from every character that is not a letter. -/
theorem isalpha_ne (X c : Char) (hX : isalpha X = true) (hc : isalpha c = false) : X ≠ c := by
  intro h; rw [h, hc] at hX; exact Bool.false_ne_true hX

/-- The inner loop on `%X` followed by the end of the pattern or by a
character that is neither a letter nor a brace: the name is `X`, there is no
argument, and the scan stops right after `X`. -/
theorem LogFormatter.scanDirective_single (X : Char) (s : Str) (hX : isalpha X = true)
    (hs : ∀ c ∈ s.head?, isalpha c = false ∧ c ≠ '{' ∧ c ≠ '}') :
    scanDirective ('%' :: X :: s) 0 (('%' :: X :: s).length + 1) ⟨1, 0, 0, [], []⟩
      = some ⟨2, 0, 0, [X], []⟩ := by
  have h1 : X ≠ '{' := isalpha_ne X _ hX (by decide)
  rw [scanDirective]
  cases s with
  | nil =>
    simp +decide [hX, h1, LogFormatter.scanAdvance_eq, scanDirective]
  | cons c s =>
    obtain ⟨hc1, hc2, hc3⟩ := hs c (by simp)
    simp +decide [hX, h1, LogFormatter.scanAdvance_eq]
    rw [scanDirective]
    simp +decide [hc1, hc2, hc3, substr]

/-- The outer loop on `%X` followed by text without `%` that does not extend
the name: one directive entry, and the text left as pending literal. -/
theorem LogFormatter.initLoop_single (X : Char) (s : Str) (hX : isalpha X = true)
    (hs : ∀ c ∈ s.head?, isalpha c = false ∧ c ≠ '{' ∧ c ≠ '}') (hp : '%' ∉ s) :
    initLoop ('%' :: X :: s) (('%' :: X :: s).length + 1) 0 ⟨[], [], false⟩
      = some ⟨s, [⟨[X], [], 1⟩], false⟩ := by
  have h1 : X ≠ '%' := isalpha_ne X _ hX (by decide)
  rw [initLoop, LogFormatter.scanDirective_single X s hX hs]
  simp +decide [h1]
  rw [LogFormatter.initLoop_literal]
  · simp
  · intro k hk
    obtain ⟨j, rfl⟩ : ∃ j, k = j + 2 := ⟨k - 2, by omega⟩
    simp only [List.getElem?_cons_succ]
    intro h
    exact hp (List.getElem?_mem h)
  · simp only [List.length_cons]; omega

/-- The formatter compiled from `%X` and such a text, for a name `X` of the
table: the item of `X` with an empty argument, then the text as one literal. -/
theorem LogFormatter.new_directive_text (X : Char) (s : Str) (mk : Str → FormatItem)
    (hX : isalpha X = true) (hmk : s_format_items [X] = some mk)
    (hs : ∀ c ∈ s.head?, isalpha c = false ∧ c ≠ '{' ∧ c ≠ '}') (hp : '%' ∉ s) :
    LogFormatter.new ('%' :: X :: s)
      = some ⟨'%' :: X :: s, mk [] :: (if s = [] then [] else [.StringFormatItem s]), false⟩ := by
  unfold LogFormatter.new init
  rw [LogFormatter.initLoop_single X s hX hs hp]
  cases s with
  | nil => simp [buildItems, hmk]
  | cons c s => simp [buildItems, hmk]

/-- The twelve names of the table are letters and have an entry. -/
theorem LogFormatter.table_letter (X : Char)
    (hX : X ∈ ['m', 'p', 'r', 'c', 't', 'n', 'd', 'f', 'l', 'T', 'F', 'N']) :
    isalpha X = true ∧ ∃ mk, s_format_items [X] = some mk := by
  simp only [List.mem_cons, List.mem_singleton, List.not_mem_nil, or_false] at hX
  rcases hX with rfl | rfl | rfl | rfl | rfl | rfl | rfl | rfl | rfl | rfl | rfl | rfl <;>
    exact ⟨by decide, _, rfl⟩

/-- In `%d\x7b` followed by text without a closing brace, the inner loop ends
in state 1 with an empty argument. -/
theorem LogFormatter.scanDirective_open_brace (a : Str) (ha : '}' ∉ a) :
    ∃ s', scanDirective ('%' :: 'd' :: '{' :: a) 0 (('%' :: 'd' :: '{' :: a).length + 1)
        ⟨1, 0, 0, [], []⟩ = some s' ∧ s'.fmt_status = 1 ∧ s'.fmt = [] := by
  have hd : isalpha 'd' = true := by decide
  rw [scanDirective]
  simp only [List.length_cons]
  simp +decide [hd, LogFormatter.scanAdvance_eq, substr]
  rw [scanDirective]
  simp +decide [LogFormatter.scanAdvance_eq, substr]
  apply LogFormatter.scanDirective_unclosed _ _ (by simp) _ _ rfl
  · intro k hk
    simp only at hk
    obtain ⟨j, rfl⟩ : ∃ j, k = j + 3 := ⟨k - 3, by omega⟩
    simp only [List.getElem?_cons_succ]
    intro h
    exact ha (List.getElem?_mem h)
  · simp

/-- Claim C4: for a letter `Q` outside the table, the pattern `%Q` compiles
(nothing is raised), `m_error` is set, and the formatter renders exactly
`<<error_format %Q>>` for every logger, level and event. -/
theorem LogFormatter.init_unknown_letter (Q : Char) (hQ : isalpha Q = true)
    (hnot : Q ∉ ['m', 'p', 'r', 'c', 't', 'n', 'd', 'f', 'l', 'T', 'F', 'N'])
    (strftime : Str → Nat → Str) (logger : Logger) (level : Level) (event : LogEvent) :
    LogFormatter.new ['%', Q]
        = some ⟨['%', Q],
            [.StringFormatItem ("<<error_format %".toList ++ [Q] ++ ">>".toList)], true⟩ ∧
      (LogFormatter.new ['%', Q]).map (fun f => f.format strftime logger level event)
        = some ("<<error_format %".toList ++ [Q] ++ ">>".toList) := by
  have hnew : LogFormatter.new ['%', Q]
        = some ⟨['%', Q],
            [.StringFormatItem ("<<error_format %".toList ++ [Q] ++ ">>".toList)], true⟩ := by
    have hl := LogFormatter.initLoop_single Q [] hQ (by simp) (by simp)
    have htab : s_format_items [Q] = none := by
      simp only [List.mem_cons, List.mem_singleton, not_or, List.not_mem_nil, or_false] at hnot
      simp [s_format_items, hnot]
    unfold LogFormatter.new init
    rw [hl]
    simp [buildItems, htab]
  refine ⟨hnew, ?_⟩
  rw [hnew]
  simp [LogFormatter.format, FormatItem.format, OStream.fresh, OStream.putStr_plain]

/-- Claim C4 at the letter `Q`: the pattern `%Q` renders `<<error_format %Q>>`. -/
theorem LogFormatter.init_unknown_letter_witness :
    isalpha 'Q' = true ∧
      'Q' ∉ ['m', 'p', 'r', 'c', 't', 'n', 'd', 'f', 'l', 'T', 'F', 'N'] ∧
      LogFormatter.new "%Q".toList
        = some ⟨"%Q".toList, [.StringFormatItem "<<error_format %Q>>".toList], true⟩ ∧
      (LogFormatter.new "%Q".toList).map
          (fun f => f.format Examples.strftime0 Examples.rootLogger .DEBUG Examples.event0)
        = some "<<error_format %Q>>".toList :=
  ⟨by decide, by decide,
    LogFormatter.init_unknown_letter 'Q' (by decide) (by decide) Examples.strftime0
      Examples.rootLogger .DEBUG Examples.event0⟩

/-- Claim C5: for every text `a` without a closing brace, the pattern `%d\x7b`
followed by `a` compiles (nothing is raised), `m_error` is set, and the items
contain the literal `<<pattern_error>>`. -/
theorem LogFormatter.init_unterminated_brace (a : Str) (ha : '}' ∉ a) :
    ∃ f, LogFormatter.new ("%d\x7b".toList ++ a) = some f ∧ f.m_error = true ∧
      FormatItem.StringFormatItem "<<pattern_error>>".toList ∈ f.m_items := by
  have hp : "%d\x7b".toList ++ a = '%' :: 'd' :: '{' :: a := rfl
  rw [hp]
  obtain ⟨s', hs1, hs2, hs3⟩ := LogFormatter.scanDirective_open_brace a ha
  obtain ⟨st', ht1, ht2, ht3⟩ := LogFormatter.initLoop_total ('%' :: 'd' :: '{' :: a)
    (('%' :: 'd' :: '{' :: a).length) 1
    { nstr := [], vec := [⟨"<<pattern_error>>".toList, [], 0⟩], m_error := true } (by simp)
  have hloop : initLoop ('%' :: 'd' :: '{' :: a) (('%' :: 'd' :: '{' :: a).length + 1) 0
      { nstr := [], vec := [], m_error := false } = some st' := by
    rw [initLoop, hs1]
    simp +decide [hs2, hs3, substrFrom]
    simpa using ht1
  unfold LogFormatter.new init
  rw [hloop]
  simp only [Option.some_bind]
  refine ⟨_, rfl, ?_, ?_⟩
  · simp only [ht3 rfl]
    exact LogFormatter.buildItems_error _ _
  · apply LogFormatter.buildItems_mem_literal _ []
    have hm : (⟨"<<pattern_error>>".toList, [], 0⟩ : Tok) ∈ st'.vec :=
      ht2.subset (by simp)
    split
    · exact List.mem_append_left _ hm
    · exact hm

/-- Claim C5 at the argument text `abc`: the pattern `%d\x7babc`. -/
theorem LogFormatter.init_unterminated_brace_witness :
    '}' ∉ "abc".toList ∧
      ∃ f, LogFormatter.new ("%d\x7b".toList ++ "abc".toList) = some f ∧ f.m_error = true ∧
        FormatItem.StringFormatItem "<<pattern_error>>".toList ∈ f.m_items :=
  ⟨by decide, LogFormatter.init_unterminated_brace "abc".toList (by decide)⟩

/-- Claim C6 as stated fails: in `%dabc` the letters `abc` extend the
directive name to `dabc`, which is not in the table, so `m_error` is set and
the formatter renders `<<error_format %dabc>>`. -/
theorem LogFormatter.init_name_is_letter_run :
    'd' ∈ ['m', 'p', 'r', 'c', 't', 'n', 'd', 'f', 'l', 'T', 'F', 'N'] ∧
      '%' ∉ "abc".toList ∧ '{' ∉ "abc".toList ∧ '}' ∉ "abc".toList ∧
      LogFormatter.new ('%' :: 'd' :: "abc".toList)
        = some ⟨"%dabc".toList, [.StringFormatItem "<<error_format %dabc>>".toList], true⟩ := by
  decide

/-- Claim C6, amended: for a letter `X` of the table and a text `s` with none
of `%`, `\x7b`, `\x7d` that does not begin with a letter, the pattern `%X`
followed by `s` compiles without error to the item of `%X` followed by `s` as
one literal, and renders what `%X` renders followed by `s`. -/
theorem LogFormatter.init_directive_then_text (X : Char) (s : Str)
    (hX : X ∈ ['m', 'p', 'r', 'c', 't', 'n', 'd', 'f', 'l', 'T', 'F', 'N'])
    (h1 : '%' ∉ s) (h2 : '{' ∉ s) (h3 : '}' ∉ s) (hhead : ∀ c ∈ s.head?, isalpha c = false)
    (strftime : Str → Nat → Str) (logger : Logger) (level : Level) (event : LogEvent) :
    ∃ f fX, LogFormatter.new ('%' :: X :: s) = some f ∧ f.m_error = false ∧
      LogFormatter.new ['%', X] = some fX ∧
      f.m_items = fX.m_items ++ (if s = [] then [] else [.StringFormatItem s]) ∧
      f.format strftime logger level event = fX.format strftime logger level event ++ s := by
  obtain ⟨hal, mk, hmk⟩ := LogFormatter.table_letter X hX
  have hs : ∀ c ∈ s.head?, isalpha c = false ∧ c ≠ '{' ∧ c ≠ '}' := by
    intro c hc
    have hm : c ∈ s := List.mem_of_mem_head? hc
    exact ⟨hhead c hc, fun h => h2 (h ▸ hm), fun h => h3 (h ▸ hm)⟩
  refine ⟨_, _, LogFormatter.new_directive_text X s mk hal hmk hs h1, rfl,
    LogFormatter.new_directive_text X [] mk hal hmk (by simp) (by simp), ?_, ?_⟩
  · simp
  · cases s with
    | nil => simp
    | cons c s =>
      simp only [LogFormatter.format, if_true, reduceCtorEq, if_false, List.foldl_cons,
        List.foldl_nil]
      cases mk [] <;>
        simp [FormatItem.format, OStream.fresh, OStream.putStr_plain, OStream.putNat_plain,
          OStream.putInt_plain, OStream.endl_plain]

/-- Claim C6, amended, at `%m` followed by the text ` abc`. -/
theorem LogFormatter.init_directive_then_text_witness :
    'm' ∈ ['m', 'p', 'r', 'c', 't', 'n', 'd', 'f', 'l', 'T', 'F', 'N'] ∧
      (∀ c ∈ " abc".toList.head?, isalpha c = false) ∧
      ∃ f fX, LogFormatter.new ('%' :: 'm' :: " abc".toList) = some f ∧ f.m_error = false ∧
        LogFormatter.new ['%', 'm'] = some fX ∧
        f.m_items = fX.m_items ++
          (if " abc".toList = [] then [] else [.StringFormatItem " abc".toList]) ∧
        f.format Examples.strftime0 Examples.rootLogger .DEBUG Examples.event0
          = fX.format Examples.strftime0 Examples.rootLogger .DEBUG Examples.event0
              ++ " abc".toList :=
  ⟨by decide, by decide,
    LogFormatter.init_directive_then_text 'm' " abc".toList (by decide) (by decide) (by decide)
      (by decide) (by decide) Examples.strftime0 Examples.rootLogger .DEBUG Examples.event0⟩

end Compiler

section Registration

open LogFormatter LogFormatter.FormatItem

/-- Claim C11: for a handler `h` with no formatter, `Logger::addHandler` gives
`h` the logger's formatter (and changes nothing else of `h`) and pushes it at
the end: the registered pointers keep their order, every entry that is another
object is unchanged, and when `h` was not registered before the sequence is the
old one followed by `h`.  The logger's other members are unchanged. -/
theorem Logger.addHandler_no_formatter (l : Logger) (h : LogHandler)
    (hnone : h.m_formatter = none) :
    (l.addHandler h).2 = { h with m_formatter := l.m_formatter } ∧
      (l.addHandler h).1.m_handlers
        = l.m_handlers.map
            (fun x => if x.addr = h.addr then { h with m_formatter := l.m_formatter } else x)
          ++ [{ h with m_formatter := l.m_formatter }] ∧
      (l.addHandler h).1.m_handlers.map (fun x => x.addr)
        = l.m_handlers.map (fun x => x.addr) ++ [h.addr] ∧
      (∀ (k : Nat) (x : LogHandler), l.m_handlers[k]? = some x → x.addr ≠ h.addr →
        (l.addHandler h).1.m_handlers[k]? = some x) ∧
      ((∀ x ∈ l.m_handlers, x.addr ≠ h.addr) →
        (l.addHandler h).1.m_handlers = l.m_handlers ++ [{ h with m_formatter := l.m_formatter }]) ∧
      (l.addHandler h).1.m_formatter = l.m_formatter ∧
      (l.addHandler h).1.m_level = l.m_level ∧
      (l.addHandler h).1.m_name = l.m_name ∧
      (l.addHandler h).1.m_root = l.m_root := by
  cases l with
  | mk m_name m_level m_handlers m_formatter m_root =>
    have hh : (Logger.mk m_name m_level m_handlers m_formatter m_root).addHandler h
        = (.mk m_name m_level
            (m_handlers.map
                (fun x => if x.addr = h.addr then { h with m_formatter := m_formatter } else x)
              ++ [{ h with m_formatter := m_formatter }]) m_formatter m_root,
            { h with m_formatter := m_formatter }) := by
      simp [Logger.addHandler, LogHandler.getFormatter, hnone]
    rw [hh]
    simp only [Logger.m_handlers, Logger.m_formatter, Logger.m_level, Logger.m_name,
      Logger.m_root, true_and, and_true]
    refine ⟨?_, ?_, ?_⟩
    · rw [List.map_append, List.map_map]
      congr 1
      apply List.map_congr_left
      intro x _
      by_cases hx : x.addr = h.addr <;> simp [hx]
    · intro k x hk hx
      have hlt : k < m_handlers.length := by
        by_contra hge
        rw [List.getElem?_eq_none (by omega)] at hk
        exact Option.noConfusion hk
      rw [List.getElem?_append_left (by simpa using hlt), List.getElem?_map, hk]
      simp [hx]
    · intro hall
      congr 1
      conv_rhs => rw [← List.map_id m_handlers]
      apply List.map_congr_left
      intro x hx
      simp [hall x hx]

/-- Claim C11 on the two-handler logger and a handler without formatter. -/
theorem Logger.addHandler_no_formatter_witness :
    Examples.bareHandler.m_formatter = none ∧
      (Examples.warnLogger.addHandler Examples.bareHandler).2
        = { Examples.bareHandler with m_formatter := some Examples.msgFormatter } ∧
      (Examples.warnLogger.addHandler Examples.bareHandler).1.m_handlers
        = [Examples.consoleHandler, Examples.fileHandler,
            { Examples.bareHandler with m_formatter := some Examples.msgFormatter }] :=
  ⟨rfl,
    (Logger.addHandler_no_formatter Examples.warnLogger Examples.bareHandler rfl).1,
    (Logger.addHandler_no_formatter Examples.warnLogger Examples.bareHandler rfl).2.2.2.2.1
      (by decide)⟩

/-- Without an entry for the handler the removal loop changes nothing. -/
theorem Logger.delHandlerLoop_absent (h : LogHandler) :
    ∀ hs : List LogHandler, (∀ y ∈ hs, y.addr ≠ h.addr) → Logger.delHandlerLoop h hs = hs := by
  intro hs
  induction hs with
  | nil => intro _; rfl
  | cons a t ih =>
    intro hall
    have ha : a.addr ≠ h.addr := hall a (List.mem_cons_self _ _)
    simp only [Logger.delHandlerLoop, ha, if_false]
    rw [ih (fun y hy => hall y (List.mem_cons_of_mem _ hy))]

/-- The removal loop erases the first entry for the handler and stops. -/
theorem Logger.delHandlerLoop_first (h x : LogHandler) (post : List LogHandler)
    (hx : x.addr = h.addr) :
    ∀ pre : List LogHandler, (∀ y ∈ pre, y.addr ≠ h.addr) →
      Logger.delHandlerLoop h (pre ++ x :: post) = pre ++ post := by
  intro pre
  induction pre with
  | nil => intro _; simp [Logger.delHandlerLoop, hx]
  | cons a t ih =>
    intro hall
    have ha : a.addr ≠ h.addr := hall a (List.mem_cons_self _ _)
    rw [List.cons_append, Logger.delHandlerLoop, if_neg ha,
      ih (fun y hy => hall y (List.mem_cons_of_mem _ hy)), List.cons_append]

/-- Claim C12: `Logger::delHandler(h)` removes the first entry that is the
pointer `h` and keeps all other entries, later entries for `h` included, in
their order; without an entry for `h` the sequence is unchanged.  The logger's
other members are unchanged. -/
theorem Logger.delHandler_first_only (l : Logger) (h : LogHandler) :
    (∀ (pre post : List LogHandler) (x : LogHandler), l.m_handlers = pre ++ x :: post →
        x.addr = h.addr → (∀ y ∈ pre, y.addr ≠ h.addr) →
        (l.delHandler h).m_handlers = pre ++ post) ∧
      ((∀ y ∈ l.m_handlers, y.addr ≠ h.addr) → (l.delHandler h).m_handlers = l.m_handlers) ∧
      (l.delHandler h).m_formatter = l.m_formatter ∧
      (l.delHandler h).m_level = l.m_level ∧
      (l.delHandler h).m_name = l.m_name ∧
      (l.delHandler h).m_root = l.m_root := by
  cases l with
  | mk m_name m_level m_handlers m_formatter m_root =>
    simp only [Logger.delHandler, Logger.m_handlers, Logger.m_formatter, Logger.m_level,
      Logger.m_name, Logger.m_root, and_true]
    refine ⟨?_, ?_⟩
    · intro pre post x hsplit hx hpre
      rw [hsplit]
      exact Logger.delHandlerLoop_first h x post hx pre hpre
    · exact Logger.delHandlerLoop_absent h m_handlers

/-- Claim C12 on a handler registered twice (one registration stays) and on a
handler that is not registered. -/
theorem Logger.delHandler_first_only_witness :
    (Logger.mk "app".toList .WARN
        [Examples.consoleHandler, Examples.fileHandler, Examples.consoleHandler]
        none none |>.delHandler Examples.consoleHandler).m_handlers
      = [Examples.fileHandler, Examples.consoleHandler] ∧
    (Examples.rootLogger.delHandler Examples.fileHandler).m_handlers
      = [Examples.consoleHandler] :=
  ⟨(Logger.delHandler_first_only _ Examples.consoleHandler).1 [] _ Examples.consoleHandler rfl rfl
      (by decide),
    (Logger.delHandler_first_only Examples.rootLogger Examples.fileHandler).2.1 (by decide)⟩

/-- Claim C13, amended: a handler on which `setFormatter` was called with a
formatter `f` keeps `f` through `Logger::addHandler`; the handler is unchanged
and is the last entry of the sequence. -/
theorem Logger.addHandler_keeps_formatter (l : Logger) (h : LogHandler) (f : LogFormatter) :
    (l.addHandler (h.setFormatter (some f))).2 = h.setFormatter (some f) ∧
      (l.addHandler (h.setFormatter (some f))).2.m_formatter = some f ∧
      (l.addHandler (h.setFormatter (some f))).1.m_handlers.getLast?
        = some (h.setFormatter (some f)) := by
  cases l with
  | mk m_name m_level m_handlers m_formatter m_root =>
    simp [Logger.addHandler, LogHandler.getFormatter, LogHandler.setFormatter, Logger.m_handlers]

/-- Claim C13 as stated fails: a handler given the tab formatter before
registration still has it after `addHandler`, not the logger's formatter. -/
theorem Logger.addHandler_not_reinherit :
    (Examples.warnLogger.addHandler
        (Examples.bareHandler.setFormatter (some Examples.tabFormatter))).2.m_formatter
      = some Examples.tabFormatter ∧
    Examples.warnLogger.m_formatter = some Examples.msgFormatter ∧
    (Examples.warnLogger.addHandler
        (Examples.bareHandler.setFormatter (some Examples.tabFormatter))).2.m_formatter
      ≠ Examples.warnLogger.m_formatter := by
  decide

end Registration

section Totality

open LogFormatter LogFormatter.FormatItem

/-- Claim C15: `LogFormatter::init` returns on every pattern: no index or
`substr` is out of range and the loops end within the pattern's length.  For a
`%` at any index `i` the inner loop stops at an index between `i + 1` and the
end of the pattern, so the outer index only moves forward. -/
theorem LogFormatter.init_total (p : Str) :
    (∃ f, LogFormatter.new p = some f ∧ f.m_pattern = p) ∧
      (∀ i, i < p.length →
        ∃ s', scanDirective p i (p.length + 1) ⟨i + 1, 0, 0, [], []⟩ = some s' ∧
          i + 1 ≤ s'.n ∧ s'.n ≤ p.length) := by
  constructor
  · obtain ⟨st', h1, _, _⟩ := LogFormatter.initLoop_total p (p.length + 1) 0
      { nstr := [], vec := [], m_error := false } (by omega)
    unfold LogFormatter.new init
    rw [h1]
    exact ⟨_, rfl, rfl⟩
  · intro i hi
    obtain ⟨s', h1, h2, h3⟩ := LogFormatter.scanDirective_total p i (by omega) (p.length + 1)
      ⟨i + 1, 0, 0, [], []⟩ (by simp only; omega) (fun h => by simp at h) (by simp only; omega)
    exact ⟨s', h1, h2, h3⟩

/-- Claim C17, amended: the item compiled from `%p` renders the name of the
level passed to the formatter, `LogLevel::ToString(level)`, whatever the event
stores. -/
theorem LogFormatter.level_item_renders_argument (strftime : Str → Nat → Str) (logger : Logger)
    (level : Level) (event : LogEvent) :
    init "%p".toList = some ([.LevelFormatItem], false) ∧
      (LogFormatter.new "%p".toList).map (fun f => f.format strftime logger level event)
        = some (LogLevel.ToString level) := by
  have h : LogFormatter.new "%p".toList = some ⟨"%p".toList, [.LevelFormatItem], false⟩ := by
    decide
  refine ⟨by decide, ?_⟩
  rw [h]
  simp [LogFormatter.format, FormatItem.format, OStream.fresh, OStream.putStr_plain]

/-- Claim C17 as stated fails: with the argument DEBUG and an event whose
stored level is FATAL, `%p` renders `DEBUG`. -/
theorem LogFormatter.level_item_ignores_event_level :
    Examples.eventFatal.m_level = .FATAL ∧
      (LogFormatter.new "%p".toList).map
          (fun f => f.format Examples.strftime0 Examples.rootLogger .DEBUG Examples.eventFatal)
        = some "DEBUG".toList ∧
      (LogFormatter.new "%p".toList).map
          (fun f => f.format Examples.strftime0 Examples.rootLogger .DEBUG Examples.eventFatal)
        ≠ some (LogLevel.ToString Examples.eventFatal.m_level) := by
  decide

/-- Claim C20: a pattern without `%` compiles without error to one literal
item equal to the pattern (to no item when it is empty) and renders exactly
the pattern. -/
theorem LogFormatter.init_no_percent (p : Str) (hp : '%' ∉ p) (strftime : Str → Nat → Str)
    (logger : Logger) (level : Level) (event : LogEvent) :
    LogFormatter.new p = some ⟨p, if p = [] then [] else [.StringFormatItem p], false⟩ ∧
      (LogFormatter.new p).map (fun f => f.format strftime logger level event) = some p := by
  have hl : initLoop p (p.length + 1) 0 ⟨[], [], false⟩ = some ⟨p, [], false⟩ := by
    rw [LogFormatter.initLoop_literal p (p.length + 1) 0 _
      (fun k _ h => hp (List.getElem?_mem h)) (by omega)]
    simp
  have hnew : LogFormatter.new p
      = some ⟨p, if p = [] then [] else [.StringFormatItem p], false⟩ := by
    unfold LogFormatter.new init
    rw [hl]
    cases p with
    | nil => simp [buildItems]
    | cons c s => simp [buildItems]
  refine ⟨hnew, ?_⟩
  rw [hnew]
  cases p with
  | nil => simp [LogFormatter.format, OStream.fresh]
  | cons c s => simp [LogFormatter.format, FormatItem.format, OStream.fresh, OStream.putStr_plain]

/-- Claim C20 at the pattern `abc`. -/
theorem LogFormatter.init_no_percent_witness :
    '%' ∉ "abc".toList ∧
      LogFormatter.new "abc".toList
        = some ⟨"abc".toList, [.StringFormatItem "abc".toList], false⟩ ∧
      (LogFormatter.new "abc".toList).map
          (fun f => f.format Examples.strftime0 Examples.rootLogger .DEBUG Examples.event0)
        = some "abc".toList :=
  ⟨by decide,
    LogFormatter.init_no_percent "abc".toList (by decide) Examples.strftime0 Examples.rootLogger
      .DEBUG Examples.event0⟩

end Totality

section Shift

open LogFormatter LogFormatter.FormatItem

/-- Inside an argument, the inner loop runs to the first closing brace, takes
the text since the opening brace as the argument and stops behind the brace. -/
theorem LogFormatter.scanDirective_closed (p : Str) (i : Nat) (hi : i + 1 ≤ p.length) (m : Nat)
    (hm : p[m]? = some '}') :
    ∀ (fuel : Nat) (s : ScanState), s.fmt_status = 1 → s.n ≤ m →
      (∀ k, s.n ≤ k → k < m → p[k]? ≠ some '}') → s.fmt_begin < s.n → m - s.n < fuel →
      scanDirective p i fuel s
        = some { s with
            fmt := (p.drop (s.fmt_begin + 1)).take (m - s.fmt_begin - 1),
            fmt_status := 0, n := m + 1 } := by
  have hmlen : m < p.length := by
    by_contra hge
    rw [List.getElem?_eq_none (by omega)] at hm
    exact Option.noConfusion hm
  intro fuel
  induction fuel with
  | zero => intro s _ _ _ _ hf; omega
  | succ fuel ih =>
    intro s hs hle hno hb hf
    unfold scanDirective
    have hn : s.n < p.length := by omega
    have hc : p[s.n]? = some p[s.n] := List.getElem?_eq_getElem hn
    by_cases heq : s.n = m
    · have hcb : p[s.n] = '}' := by
        have h2 : p[s.n]? = some '}' := by rw [heq]; exact hm
        rw [hc] at h2
        exact Option.some.inj h2
      have hsub : substr p (s.fmt_begin + 1) (s.n - s.fmt_begin - 1)
          = some ((p.drop (s.fmt_begin + 1)).take (s.n - s.fmt_begin - 1)) := by
        simp only [substr]; rw [if_pos (by omega)]
      simp only [hn, if_true, hc, Option.some_bind, hs, one_ne_zero, false_and, if_false, hcb,
        hsub]
      simp only [heq]
    · have hne : p[s.n] ≠ '}' := fun h => hno s.n le_rfl (by omega) (by rw [hc, h])
      have hlen : ¬ (s.n + 1 = p.length ∧ s.str.isEmpty = true) := fun h => by omega
      simp only [hn, if_true, hc, Option.some_bind, hs, one_ne_zero, false_and, if_false, hne,
        LogFormatter.scanAdvance_eq p i hi, hlen]
      rw [ih { n := s.n + 1, fmt_status := 1, fmt_begin := s.fmt_begin, str := s.str,
               fmt := s.fmt } rfl (by simp only; omega)
        (fun k hk hkm => hno k (by simp only at hk; omega) hkm) (by simp only; omega)
        (by simp only; omega)]

/-- At the end of the pattern the outer loop returns its state. -/
theorem LogFormatter.initLoop_end (p : Str) (fuel i : Nat) (st : InitState)
    (hi : p.length ≤ i) : initLoop p (fuel + 1) i st = some st := by
  rw [initLoop, if_neg (by omega)]

/-- Claim C16: `%d` alone and `%d` with an empty argument compile to a date
item with the sub-pattern `%Y-%m-%d %H:%M:%S`; `%d` with a non-empty argument
`a` that has no closing brace inside compiles to a date item with sub-pattern
exactly `a`; `m_error` stays false in the three cases. -/
theorem LogFormatter.init_date_argument (a : Str) (hne : a ≠ []) (ha : '}' ∉ a) :
    init "%d".toList = some ([.DateTimeFormatItem "%Y-%m-%d %H:%M:%S".toList], false) ∧
      init "%d\x7b\x7d".toList
        = some ([.DateTimeFormatItem "%Y-%m-%d %H:%M:%S".toList], false) ∧
      init ("%d\x7b".toList ++ a ++ "\x7d".toList) = some ([.DateTimeFormatItem a], false) := by
  refine ⟨by decide, by decide, ?_⟩
  have hp : "%d\x7b".toList ++ a ++ "\x7d".toList = '%' :: 'd' :: '{' :: (a ++ ['}']) := rfl
  rw [hp]
  have hd : isalpha 'd' = true := by decide
  have hscan : scanDirective ('%' :: 'd' :: '{' :: (a ++ ['}'])) 0
      (('%' :: 'd' :: '{' :: (a ++ ['}'])).length + 1) ⟨1, 0, 0, [], []⟩
      = some ⟨a.length + 4, 0, 2, ['d'], a⟩ := by
    rw [scanDirective]
    simp only [List.length_cons]
    simp +decide [hd, LogFormatter.scanAdvance_eq, substr]
    rw [scanDirective]
    simp +decide [LogFormatter.scanAdvance_eq, substr]
    rw [LogFormatter.scanDirective_closed _ 0 (by simp) (a.length + 3) (by simp) _ _ rfl
      (by simp) _ (by simp) (by simp)]
    · simp
    · intro k hk hkm
      simp only at hk
      obtain ⟨j, rfl⟩ : ∃ j, k = j + 3 := ⟨k - 3, by omega⟩
      simp only [List.getElem?_cons_succ]
      rw [List.getElem?_append_left (by omega)]
      intro h
      exact ha (List.getElem?_mem h)
  unfold init
  rw [initLoop, hscan]
  simp +decide
  have hlen : ('%' :: 'd' :: '{' :: (a ++ ['}'])).length ≤ a.length + 3 + 1 := by
    simp only [List.length_cons, List.length_append, List.length_nil]
    omega
  rw [LogFormatter.initLoop_end _ _ _ _ hlen]
  simp [buildItems, s_format_items, DateTimeFormatItem.new, hne]

/-- Claim C16 at the argument `%H:%M`. -/
theorem LogFormatter.init_date_argument_witness :
    "%H:%M".toList ≠ [] ∧ '}' ∉ "%H:%M".toList ∧
      init "%d\x7b%H:%M\x7d".toList = some ([.DateTimeFormatItem "%H:%M".toList], false) :=
  ⟨by decide, by decide,
    (LogFormatter.init_date_argument "%H:%M".toList (by decide) (by decide)).2.2⟩

/-- Indexing behind a prefix. -/
theorem getElem?_shift (pre q : Str) (n : Nat) : (pre ++ q)[pre.length + n]? = q[n]? := by
  rw [List.getElem?_append_right (by omega)]
  congr 1
  omega

/-- The call `substr` behind a prefix. -/
theorem substr_shift (pre q : Str) (a len : Nat) :
    substr (pre ++ q) (pre.length + a) len = substr q a len := by
  simp only [substr, List.length_append, Nat.add_le_add_iff_left, List.drop_append]

/-- The one-argument `substr` behind a prefix. -/
theorem substrFrom_shift (pre q : Str) (a : Nat) :
    substrFrom (pre ++ q) (pre.length + a) = (substrFrom q a) := by
  simp only [substrFrom, List.length_append, Nat.add_le_add_iff_left, List.drop_append]

/-- The tail of the inner loop body does the same on a pattern and on the
pattern behind a prefix. -/
theorem LogFormatter.scanAdvance_shift (pre q : Str) (i : Nat) (hi : i + 1 ≤ q.length)
    (n st b b' : Nat) (str fmt : Str) :
    ∃ str', scanAdvance q i ⟨n, st, b, str, fmt⟩ = some ⟨n + 1, st, b, str', fmt⟩ ∧
      scanAdvance (pre ++ q) (pre.length + i) ⟨pre.length + n, st, b', str, fmt⟩
        = some ⟨pre.length + (n + 1), st, b', str', fmt⟩ := by
  rw [LogFormatter.scanAdvance_eq q i hi,
    LogFormatter.scanAdvance_eq (pre ++ q) (pre.length + i)
      (by simp only [List.length_append]; omega)]
  refine ⟨_, rfl, ?_⟩
  simp only [List.length_append, Nat.add_assoc, Nat.add_left_cancel_iff, List.drop_append]

/-- The inner loop does not look before its `%`: behind a prefix it returns the
same name, argument and state, at the shifted index. -/
theorem LogFormatter.scanDirective_shift (pre q : Str) (i : Nat) (hi : i + 1 ≤ q.length) :
    ∀ (f2 f1 n st b b' : Nat) (str fmt : Str) (r : ScanState),
      (st = 1 → b' = pre.length + b) → q.length - n < f1 →
      scanDirective q i f2 ⟨n, st, b, str, fmt⟩ = some r →
      ∃ b'', scanDirective (pre ++ q) (pre.length + i) f1 ⟨pre.length + n, st, b', str, fmt⟩
        = some ⟨pre.length + r.n, r.fmt_status, b'', r.str, r.fmt⟩ := by
  intro f2
  induction f2 with
  | zero => intro f1 n st b b' str fmt r _ _ h; simp [scanDirective] at h
  | succ f2 ih =>
    intro f1 n st b b' str fmt r hb hf h
    cases f1 with
    | zero => omega
    | succ f1 =>
      obtain ⟨str', ha1, ha2⟩ := LogFormatter.scanAdvance_shift pre q i hi n st b b' str fmt
      have hadv : ∀ r, (scanAdvance q i ⟨n, st, b, str, fmt⟩).bind (scanDirective q i f2) = some r →
          n < q.length →
          ∃ b'', (scanAdvance (pre ++ q) (pre.length + i) ⟨pre.length + n, st, b', str, fmt⟩).bind
              (scanDirective (pre ++ q) (pre.length + i) f1)
            = some ⟨pre.length + r.n, r.fmt_status, b'', r.str, r.fmt⟩ := by
        intro r hr hn
        rw [ha1] at hr
        rw [ha2]
        simp only [Option.some_bind] at hr ⊢
        exact ih f1 (n + 1) st b b' str' fmt r hb (by omega) hr
      unfold scanDirective at h ⊢
      simp only [List.length_append, Nat.add_lt_add_iff_left, getElem?_shift] at h ⊢
      by_cases hn : n < q.length
      · have hc : q[n]? = some q[n] := List.getElem?_eq_getElem hn
        simp only [hn, if_true, hc, Option.some_bind] at h ⊢
        have e1 : pre.length + n - (pre.length + i) - 1 = n - i - 1 := by omega
        have e2 : pre.length + i + 1 = pre.length + (i + 1) := by omega
        rw [e1, e2, substr_shift]
        split at h
        · rename_i hcond
          rw [if_pos hcond]
          cases hs : substr q (i + 1) (n - i - 1) with
          | none => rw [hs] at h; simp at h
          | some v =>
            rw [hs] at h
            simp only [Option.some_bind, Option.some.injEq] at h ⊢
            subst h
            exact ⟨b', rfl⟩
        · rename_i hcond
          rw [if_neg hcond]
          split at h
          · rename_i hst
            rw [if_pos hst]
            split at h
            · rename_i hbrace
              rw [if_pos hbrace]
              cases hs : substr q (i + 1) (n - i - 1) with
              | none => rw [hs] at h; simp at h
              | some v =>
                rw [hs] at h
                simp only [Option.some_bind] at h ⊢
                exact ih f1 (n + 1) 1 n (pre.length + n) v fmt r (fun _ => rfl) (by omega) h
            · rename_i hbrace
              rw [if_neg hbrace]
              exact hadv r h hn
          · rename_i hst
            rw [if_neg hst]
            split at h
            · rename_i hst1
              rw [if_pos hst1]
              split at h
              · rename_i hbrace
                rw [if_pos hbrace]
                have hb' := hb hst1
                have e3 : b' + 1 = pre.length + (b + 1) := by omega
                have e4 : pre.length + n - b' - 1 = n - b - 1 := by omega
                rw [e3, e4, substr_shift]
                cases hs : substr q (b + 1) (n - b - 1) with
                | none => rw [hs] at h; simp at h
                | some v =>
                  rw [hs] at h
                  simp only [Option.some_bind, Option.some.injEq] at h ⊢
                  subst h
                  exact ⟨b', rfl⟩
              · rename_i hbrace
                rw [if_neg hbrace]
                exact hadv r h hn
            · rename_i hst1
              rw [if_neg hst1]
              exact hadv r h hn
      · simp only [hn, if_false, Option.some.injEq] at h ⊢
        subst h
        exact ⟨b', rfl⟩

/-- The outer loop does not look before its index: behind a prefix, and with
entries already in `vec`, it appends the same entries and ends with the same
pending literal. -/
theorem LogFormatter.initLoop_shift (pre q : Str) (v0 : List Tok) (e0 : Bool) :
    ∀ (f2 f1 i : Nat) (st r : InitState), q.length - i < f1 →
      initLoop q f2 i st = some r →
      initLoop (pre ++ q) f1 (pre.length + i) ⟨st.nstr, v0 ++ st.vec, e0 || st.m_error⟩
        = some ⟨r.nstr, v0 ++ r.vec, e0 || r.m_error⟩ := by
  intro f2
  induction f2 with
  | zero => intro f1 i st r _ h; simp [initLoop] at h
  | succ f2 ih =>
    intro f1 i st r hf h
    cases f1 with
    | zero => omega
    | succ f1 =>
      unfold initLoop at h ⊢
      simp only [List.length_append, Nat.add_lt_add_iff_left, getElem?_shift] at h ⊢
      by_cases hi : i < q.length
      · have hc : q[i]? = some q[i] := List.getElem?_eq_getElem hi
        simp only [hi, if_true, hc, Option.some_bind] at h ⊢
        by_cases hpc : q[i] = '%'
        · simp only [hpc, ne_eq, not_true_eq_false, if_false] at h ⊢
          have e1 : pre.length + i + 1 = pre.length + (i + 1) := by omega
          rw [e1]
          simp only [Nat.add_lt_add_iff_left, getElem?_shift]
          cases hesc : (if i + 1 < q.length then
              q[i + 1]?.bind fun c1 => some (decide (c1 = '%')) else some false) with
          | none => rw [hesc] at h; simp at h
          | some e =>
            rw [hesc] at h
            simp only [Option.some_bind] at h ⊢
            cases e with
            | true =>
              simp only [if_true] at h ⊢
              exact ih f1 (i + 1) { st with nstr := st.nstr ++ ['%'] } r (by omega) h
            | false =>
              simp only [Bool.false_eq_true, if_false] at h ⊢
              cases hscan : scanDirective q i (q.length + 1) ⟨i + 1, 0, 0, [], []⟩ with
              | none => rw [hscan] at h; simp at h
              | some s =>
                rw [hscan] at h
                obtain ⟨b'', hP⟩ := LogFormatter.scanDirective_shift pre q i (by omega)
                  (q.length + 1) (pre.length + q.length + 1) (i + 1) 0 0 0 [] [] s
                  (fun h0 => by simp at h0) (by omega) hscan
                obtain ⟨s2, hs2, hs3, _⟩ := LogFormatter.scanDirective_total q i (by omega)
                  (q.length + 1) ⟨i + 1, 0, 0, [], []⟩ (by simp only; omega)
                  (fun h0 => by simp at h0) (by simp only; omega)
                rw [hscan] at hs2
                cases hs2
                simp only at hs3
                rw [hP]
                simp only [Option.some_bind] at h ⊢
                split at h
                · rename_i h0
                  rw [if_pos h0]
                  have e2 : pre.length + s.n - 1 + 1 = pre.length + (s.n - 1 + 1) := by omega
                  rw [e2]
                  have := ih f1 (s.n - 1 + 1)
                    { nstr := if (!st.nstr.isEmpty) = true then [] else st.nstr,
                      vec := (if (!st.nstr.isEmpty) = true then st.vec ++ [⟨st.nstr, [], 0⟩]
                        else st.vec) ++ [⟨s.str, s.fmt, 1⟩],
                      m_error := st.m_error } r (by omega) h
                  rw [← this]
                  congr 2
                  split <;> simp
                · rename_i h0
                  rw [if_neg h0]
                  split at h
                  · rename_i h1
                    rw [if_pos h1]
                    rw [substrFrom_shift]
                    cases hsf : substrFrom q i with
                    | none => rw [hsf] at h; simp at h
                    | some v =>
                      rw [hsf] at h
                      simp only [Option.some_bind] at h ⊢
                      have := ih f1 (i + 1)
                        { st with m_error := true,
                                  vec := st.vec ++ [⟨"<<pattern_error>>".toList, s.fmt, 0⟩] }
                        r (by omega) h
                      rw [← this]
                      simp
                  · rename_i h1
                    rw [if_neg h1]
                    exact ih f1 (i + 1) st r (by omega) h
        · simp only [ne_eq, hpc, not_false_eq_true, if_true] at h ⊢
          exact ih f1 (i + 1) { st with nstr := st.nstr ++ [q[i]] } r (by omega) h
      · simp only [hi, if_false, Option.some.injEq] at h ⊢
        subst h
        rfl

/-- The item loop appends to the items it has and only adds to `m_error`. -/
theorem LogFormatter.buildItems_acc :
    ∀ (vec : List Tok) (m_items : List FormatItem) (m_error : Bool),
      buildItems vec (m_items, m_error)
        = (m_items ++ (buildItems vec ([], false)).1, m_error || (buildItems vec ([], false)).2) := by
  intro vec
  induction vec with
  | nil => intro m_items m_error; simp [buildItems]
  | cons t vec ih =>
    intro m_items m_error
    unfold buildItems
    split
    · rw [ih (m_items ++ _), ih ([] ++ _)]; simp
    · split
      · rw [ih (m_items ++ _), ih ([] ++ _)]; simp
      · rw [ih (m_items ++ _), ih ([] ++ _)]; simp

/-- Over a run of letters that ends at a character which is neither a letter
nor a brace, the inner loop takes the run as the name and stops at that
character. -/
theorem LogFormatter.scanDirective_name (p : Str) (i m : Nat) (hi : i + 1 ≤ m)
    (c : Char) (hm : p[m]? = some c) (hc : isalpha c = false) (hc1 : c ≠ '{') (hc2 : c ≠ '}') :
    ∀ (fuel n : Nat), i + 1 ≤ n → n ≤ m →
      (∀ j x, n ≤ j → j < m → p[j]? = some x → isalpha x = true) → m - n < fuel →
      scanDirective p i fuel ⟨n, 0, 0, [], []⟩
        = some ⟨m, 0, 0, (p.drop (i + 1)).take (m - i - 1), []⟩ := by
  have hmlen : m < p.length := by
    by_contra hge
    rw [List.getElem?_eq_none (by omega)] at hm
    exact Option.noConfusion hm
  intro fuel
  induction fuel with
  | zero => intro n _ _ _ hf; omega
  | succ fuel ih =>
    intro n hn hnm hal hf
    unfold scanDirective
    have hlt : n < p.length := by omega
    have hget : p[n]? = some p[n] := List.getElem?_eq_getElem hlt
    by_cases heq : n = m
    · subst heq
      have hpc : p[n] = c := by rw [hget] at hm; exact Option.some.inj hm
      have hsub : substr p (i + 1) (n - i - 1) = some ((p.drop (i + 1)).take (n - i - 1)) := by
        simp only [substr]; rw [if_pos (by omega)]
      simp +decide [hlt, hget, hpc, hc, hc1, hc2, hsub]
    · have hx : isalpha p[n] = true := hal n _ le_rfl (by omega) hget
      have hb : p[n] ≠ '{' := isalpha_ne _ _ hx (by decide)
      have hlen : ¬ (n + 1 = p.length) := by omega
      simp +decide [hlt, hget, hx, hb, LogFormatter.scanAdvance_eq p i (by omega), hlen]
      exact ih (n + 1) (by omega) (by omega) (fun j x h1 h2 => hal j x (by omega) h2) (by omega)

/-- Claim C19: in `%` + `w` + `c` + `rest`, with `w` a run of letters and `c`
neither a letter nor a brace (nor `%` when `w` is empty), the name is `w` with
an empty argument: the first item is the table item of `w`, or the literal
`<<error_format %w>>` with `m_error` set when `w` is not in the table, and the
items after it are exactly those of compiling `c` + `rest` on its own, whose
error flag is kept. -/
theorem LogFormatter.init_name_then_rest (w : Str) (c : Char) (rest : Str)
    (hw : ∀ x ∈ w, isalpha x = true) (hc : isalpha c = false) (hc1 : c ≠ '{') (hc2 : c ≠ '}')
    (hc3 : w = [] → c ≠ '%') :
    ∃ items err, init (c :: rest) = some (items, err) ∧
      init ('%' :: (w ++ c :: rest))
        = some
            ((match s_format_items w with
              | some it => it []
              | none => .StringFormatItem ("<<error_format %".toList ++ w ++ ">>".toList))
              :: items,
            (s_format_items w).isNone || err) := by
  obtain ⟨r, hr, _, _⟩ := LogFormatter.initLoop_total (c :: rest) ((c :: rest).length + 1) 0
    ⟨[], [], false⟩ (by omega)
  obtain ⟨p, hp⟩ : ∃ p, p = '%' :: (w ++ c :: rest) := ⟨_, rfl⟩
  have hpq : p = ('%' :: w) ++ (c :: rest) := hp
  have hlen : p.length = w.length + rest.length + 2 := by
    rw [hp]; simp only [List.length_cons, List.length_append]; omega
  have hg0 : p[0]? = some '%' := by rw [hp]; simp
  have hgm : p[w.length + 1]? = some c := by
    rw [hp, List.getElem?_cons_succ, List.getElem?_append_right (le_refl _)]
    simp
  have hshift : initLoop p p.length (w.length + 1) ⟨[], [⟨w, [], 1⟩], false⟩
      = some ⟨r.nstr, [⟨w, [], 1⟩] ++ r.vec, false || r.m_error⟩ := by
    have := LogFormatter.initLoop_shift ('%' :: w) (c :: rest) [⟨w, [], 1⟩] false
      ((c :: rest).length + 1) p.length 0 ⟨[], [], false⟩ r
      (by rw [hlen]; simp only [List.length_cons]; omega) hr
    rw [← hpq] at this
    exact this
  have hscan : scanDirective p 0 (p.length + 1) ⟨1, 0, 0, [], []⟩
      = some ⟨w.length + 1, 0, 0, w, []⟩ := by
    rw [LogFormatter.scanDirective_name p 0 (w.length + 1) (by omega) c hgm hc hc1 hc2 _ 1
      (by omega) (by omega) _ (by omega)]
    · rw [hp]; simp
    · intro j x hj hjm hx
      obtain ⟨j, rfl⟩ : ∃ j', j = j' + 1 := ⟨j - 1, by omega⟩
      rw [hp, List.getElem?_cons_succ, List.getElem?_append_left (by omega)] at hx
      exact hw x (List.getElem?_mem hx)
  have hesc : (if 0 + 1 < p.length then
      p[0 + 1]?.bind fun c1 => some (decide (c1 = '%')) else some false) = some false := by
    rw [if_pos (by omega)]
    cases w with
    | nil =>
      have : p[0 + 1]? = some c := by simpa using hgm
      rw [this]
      simp [hc3 rfl]
    | cons a t =>
      have ha : isalpha a = true := hw a (List.mem_cons_self _ _)
      have hne : a ≠ '%' := isalpha_ne a _ ha (by decide)
      have : p[0 + 1]? = some a := by rw [hp]; simp
      rw [this]
      simp [hne]
  have hloop : initLoop p (p.length + 1) 0 ⟨[], [], false⟩
      = some ⟨r.nstr, [⟨w, [], 1⟩] ++ r.vec, false || r.m_error⟩ := by
    rw [← hshift, initLoop, if_pos (by omega), hg0]
    simp only [Option.some_bind, ne_eq, not_true_eq_false, if_false, hesc, hscan,
      Bool.false_eq_true, if_true]
    simp
  refine ⟨(buildItems (if (!r.nstr.isEmpty) = true then r.vec ++ [⟨r.nstr, [], 0⟩] else r.vec)
      ([], r.m_error)).1,
    (buildItems (if (!r.nstr.isEmpty) = true then r.vec ++ [⟨r.nstr, [], 0⟩] else r.vec)
      ([], r.m_error)).2, ?_, ?_⟩
  · unfold init
    rw [hr]
    rfl
  · rw [← hp]
    unfold init
    rw [hloop]
    simp only [Option.some_bind, Bool.false_or, List.singleton_append]
    have hv : (if (!r.nstr.isEmpty) = true then
          (⟨w, [], 1⟩ : Tok) :: r.vec ++ [⟨r.nstr, [], 0⟩] else ⟨w, [], 1⟩ :: r.vec)
        = ⟨w, [], 1⟩ :: (if (!r.nstr.isEmpty) = true then r.vec ++ [⟨r.nstr, [], 0⟩]
            else r.vec) := by
      split <;> simp
    rw [hv, buildItems]
    simp only [one_ne_zero, if_false]
    cases htab : s_format_items w with
    | none =>
      simp only [Option.isNone_none, Bool.true_or]
      rw [LogFormatter.buildItems_acc, LogFormatter.buildItems_acc _ [] r.m_error]
      simp
    | some it =>
      simp only [Option.isNone_some, Bool.false_or]
      rw [LogFormatter.buildItems_acc, LogFormatter.buildItems_acc _ [] r.m_error]
      simp

/-- Claim C19 at `%d` followed by ` x%m`. -/
theorem LogFormatter.init_name_then_rest_witness :
    (∀ x ∈ "d".toList, isalpha x = true) ∧ isalpha ' ' = false ∧
      ∃ items err, init (' ' :: "x%m".toList) = some (items, err) ∧
        init ('%' :: ("d".toList ++ ' ' :: "x%m".toList))
          = some
              ((match s_format_items "d".toList with
                | some it => it []
                | none =>
                  .StringFormatItem ("<<error_format %".toList ++ "d".toList ++ ">>".toList))
                :: items,
              (s_format_items "d".toList).isNone || err) :=
  ⟨by decide, by decide,
    LogFormatter.init_name_then_rest "d".toList ' ' "x%m".toList (by decide) (by decide)
      (by decide) (by decide) (by decide)⟩

/-- Claim C18 at the pattern `x%d\x7babc`: the branch for an unclosed brace
pushes `<<pattern_error>>` without first flushing the pending literal `x`, so
the marker is rendered before `x`, which then joins the following literal. -/
theorem LogFormatter.error_marker_before_pending_literal (strftime : Str → Nat → Str)
    (logger : Logger) (level : Level) (event : LogEvent) :
    LogFormatter.new "x%d\x7babc".toList
        = some ⟨"x%d\x7babc".toList,
            [.StringFormatItem "<<pattern_error>>".toList,
              .StringFormatItem "xd\x7babc".toList], true⟩ ∧
      (LogFormatter.new "x%d\x7babc".toList).map (fun f => f.format strftime logger level event)
        = some "<<pattern_error>>xd\x7babc".toList ∧
      (LogFormatter.new "%d\x7babc".toList).map (fun f => f.format strftime logger level event)
        = some "<<pattern_error>>d\x7babc".toList ∧
      "<<pattern_error>>xd\x7babc".toList ≠ "x".toList ++ "<<pattern_error>>d\x7babc".toList := by
  have h1 : LogFormatter.new "x%d\x7babc".toList
        = some ⟨"x%d\x7babc".toList,
            [.StringFormatItem "<<pattern_error>>".toList,
              .StringFormatItem "xd\x7babc".toList], true⟩ := by
    decide
  have h2 : LogFormatter.new "%d\x7babc".toList
        = some ⟨"%d\x7babc".toList,
            [.StringFormatItem "<<pattern_error>>".toList,
              .StringFormatItem "d\x7babc".toList], true⟩ := by
    decide
  refine ⟨h1, ?_, ?_, by decide⟩
  · rw [h1]; rfl
  · rw [h2]; rfl

end Shift

section Invariants

open LogFormatter LogFormatter.FormatItem

/-- The removal loop keeps only entries that were there. -/
theorem Logger.delHandlerLoop_subset (h : LogHandler) :
    ∀ (hs : List LogHandler) (x : LogHandler), x ∈ Logger.delHandlerLoop h hs → x ∈ hs := by
  intro hs
  induction hs with
  | nil => intro x hx; simp [Logger.delHandlerLoop] at hx
  | cons a t ih =>
    intro x hx
    unfold Logger.delHandlerLoop at hx
    split at hx
    · exact List.mem_cons_of_mem _ hx
    · rcases List.mem_cons.mp hx with hx | hx
      · rw [hx]; exact List.mem_cons_self _ _
      · exact List.mem_cons_of_mem _ (ih x hx)

/-- When the logger and its handlers have formatters, so they have after
`addHandler`; the root is unchanged. -/
theorem Logger.addHandler_formatters (l : Logger) (h : LogHandler)
    (hl : l.m_formatter ≠ none) (hall : ∀ x ∈ l.m_handlers, x.m_formatter ≠ none) :
    (l.addHandler h).1.m_formatter ≠ none ∧ (l.addHandler h).1.m_root = l.m_root ∧
      ∀ x ∈ (l.addHandler h).1.m_handlers, x.m_formatter ≠ none := by
  cases l with
  | mk m_name m_level m_handlers m_formatter m_root =>
    simp only [Logger.m_formatter, Logger.m_handlers, Logger.m_root] at hl hall
    obtain ⟨h', hh, hnew⟩ : ∃ h', (if h.getFormatter.isNone = true then
        { h with m_formatter := m_formatter } else h) = h' ∧ h'.m_formatter ≠ none := by
      refine ⟨_, rfl, ?_⟩
      cases hf : h.m_formatter with
      | none => simp only [LogHandler.getFormatter, hf, Option.isNone_none, if_true]; exact hl
      | some f => simp [LogHandler.getFormatter, hf]
    simp only [Logger.addHandler, hh, Logger.m_formatter, Logger.m_handlers, Logger.m_root]
    refine ⟨hl, trivial, ?_⟩
    intro x hx
    rcases List.mem_append.mp hx with hx | hx
    · obtain ⟨y, hy, rfl⟩ := List.mem_map.mp hx
      split
      · exact hnew
      · exact hall y hy
    · rw [List.mem_singleton.mp hx]; exact hnew

/-- When the logger and its handlers have formatters, so they have after
`delHandler`; the root is unchanged. -/
theorem Logger.delHandler_formatters (l : Logger) (h : LogHandler)
    (hl : l.m_formatter ≠ none) (hall : ∀ x ∈ l.m_handlers, x.m_formatter ≠ none) :
    (l.delHandler h).m_formatter ≠ none ∧ (l.delHandler h).m_root = l.m_root ∧
      ∀ x ∈ (l.delHandler h).m_handlers, x.m_formatter ≠ none := by
  cases l with
  | mk m_name m_level m_handlers m_formatter m_root =>
    simp only [Logger.m_formatter, Logger.m_handlers, Logger.m_root] at hl hall
    simp only [Logger.delHandler, Logger.m_formatter, Logger.m_handlers, Logger.m_root]
    exact ⟨hl, trivial, fun x hx => hall x (Logger.delHandlerLoop_subset h _ x hx)⟩

/-- A sequence of `addHandler` and `delHandler` calls keeps the root and keeps
every registered handler with a formatter. -/
theorem Logger.calls_formatters :
    ∀ (cs : List HandlerCall) (l : Logger), l.m_formatter ≠ none →
      (∀ x ∈ l.m_handlers, x.m_formatter ≠ none) →
      (l.calls cs).m_root = l.m_root ∧ ∀ x ∈ (l.calls cs).m_handlers, x.m_formatter ≠ none := by
  intro cs
  induction cs with
  | nil => intro l _ hall; exact ⟨rfl, hall⟩
  | cons c cs ih =>
    intro l hl hall
    cases c with
    | addHandler h =>
      obtain ⟨h1, h2, h3⟩ := Logger.addHandler_formatters l h hl hall
      obtain ⟨h4, h5⟩ := ih (l.addHandler h).1 h1 h3
      exact ⟨by rw [Logger.calls, h4, h2], by rw [Logger.calls]; exact h5⟩
    | delHandler h =>
      obtain ⟨h1, h2, h3⟩ := Logger.delHandler_formatters l h hl hall
      obtain ⟨h4, h5⟩ := ih (l.delHandler h) h1 h3
      exact ⟨by rw [Logger.calls, h4, h2], by rw [Logger.calls]; exact h5⟩

/-- A logger without root whose handlers all have a formatter never
dereferences a null formatter in `log`. -/
theorem Logger.log_some_of_formatters (strftime : Str → Nat → Str) (l : Logger)
    (hroot : l.m_root = none) (hall : ∀ x ∈ l.m_handlers, x.m_formatter ≠ none)
    (level : Level) (event : LogEvent) :
    ∃ ws, l.log strftime level event = some ws := by
  cases l with
  | mk m_name m_level m_handlers m_formatter m_root =>
    simp only [Logger.m_root, Logger.m_handlers] at hroot hall
    subst hroot
    unfold Logger.log
    split
    · split
      · rw [Logger.logHandlers_eq strftime _ level event
          (fun x => x.m_formatter.getD ⟨[], [], false⟩) m_handlers]
        · exact ⟨_, rfl⟩
        · intro x hx _
          cases hf : x.m_formatter with
          | none => exact absurd hf (hall x hx)
          | some f => rfl
      · exact ⟨_, rfl⟩
    · exact ⟨_, rfl⟩

/-- Claim C22: the logger built by `Logger::Logger` and then changed by any
sequence of `addHandler` and `delHandler` calls has a formatter on every
registered handler, and `Logger::log` on it completes for every level and
event: no handler is asked to render through a null formatter. -/
theorem Logger.registered_handlers_have_formatter (name : Str) (cs : List HandlerCall) :
    ∃ l0, Logger.new name = some l0 ∧
      (∀ x ∈ (l0.calls cs).m_handlers, x.m_formatter ≠ none) ∧
      ∀ (strftime : Str → Nat → Str) (level : Level) (event : LogEvent),
        ∃ ws, (l0.calls cs).log strftime level event = some ws := by
  obtain ⟨f, hf⟩ : ∃ f, LogFormatter.new Logger.defaultPattern = some f := ⟨_, rfl⟩
  have hnew : Logger.new name = some (.mk name .DEBUG [] (some f) none) := by
    simp only [Logger.new, hf, Option.some_bind]
  obtain ⟨h1, h2⟩ := Logger.calls_formatters cs (.mk name .DEBUG [] (some f) none)
    (by simp [Logger.m_formatter]) (by simp [Logger.m_handlers])
  exact ⟨_, hnew, h2, fun strftime level event =>
    Logger.log_some_of_formatters strftime _ (by rw [h1]; rfl) h2 level event⟩

/-- Claim C23: the item compiled from `%c` renders the name of the logger
stored in the event; the text is the same for any two loggers passed as the
formatter's logger argument; and an event that a handler-less logger hands to
its root is written by the root's `%c` handler with the name of the event's
logger, not the root's. -/
theorem LogFormatter.name_item_uses_event_logger (strftime : Str → Nat → Str) :
    init "%c".toList = some ([.NameFormatItem], false) ∧
      (∀ (logger : Logger) (level : Level) (event : LogEvent),
        (LogFormatter.new "%c".toList).map (fun f => f.format strftime logger level event)
          = some event.m_logger.m_name) ∧
      (∀ (logger1 logger2 : Logger) (level : Level) (event : LogEvent),
        (LogFormatter.new "%c".toList).map (fun f => f.format strftime logger1 level event)
          = (LogFormatter.new "%c".toList).map
              (fun f => f.format strftime logger2 level event)) ∧
      (∀ (l root : Logger) (h : LogHandler) (f : LogFormatter) (level : Level)
          (event : LogEvent),
        LogFormatter.new "%c".toList = some f → l.m_handlers = [] → l.m_root = some root →
        root.m_handlers = [h] → h.m_formatter = some f →
        l.m_level.toNat ≤ level.toNat → root.m_level.toNat ≤ level.toNat →
        h.m_level.toNat ≤ level.toNat →
        l.log strftime level event = some [⟨h.addr, event.m_logger.m_name⟩]) := by
  have hnew : LogFormatter.new "%c".toList = some ⟨"%c".toList, [.NameFormatItem], false⟩ := by
    decide
  have hfmt : ∀ (logger : Logger) (level : Level) (event : LogEvent),
      (⟨"%c".toList, [.NameFormatItem], false⟩ : LogFormatter).format strftime logger level event
        = event.m_logger.m_name := by
    intro logger level event
    simp [LogFormatter.format, FormatItem.format, OStream.fresh, OStream.putStr_plain]
  refine ⟨by decide, ?_, ?_, ?_⟩
  · intro logger level event
    rw [hnew, Option.map_some', hfmt]
  · intro logger1 logger2 level event
    rw [hnew, Option.map_some', Option.map_some', hfmt, hfmt]
  · intro l root h f level event hf hempty hroot hhs hhf hl hr hh
    rw [hnew] at hf
    cases hf
    cases l with
    | mk m_name m_level m_handlers m_formatter m_root =>
      simp only [Logger.m_handlers, Logger.m_level, Logger.m_root] at hempty hroot hl
      subst hempty hroot
      conv_lhs => unfold Logger.log
      simp only [ge_iff_le, hl, if_true, List.isEmpty_nil, Bool.not_true, Bool.false_eq_true,
        if_false]
      cases root with
      | mk r_name r_level r_handlers r_formatter r_root =>
        simp only [Logger.m_handlers, Logger.m_level] at hhs hr
        subst hhs
        unfold Logger.log
        simp only [ge_iff_le, hr, if_true, List.isEmpty_cons, Bool.not_false]
        rw [Logger.logHandlers_eq strftime _ level event
          (fun _ => ⟨"%c".toList, [.NameFormatItem], false⟩) [h]
          (fun x hx _ => by rw [List.mem_singleton.mp hx]; exact hhf)]
        simp only [List.filter_cons, hh, decide_True, if_true, List.filter_nil, List.map_cons,
          List.map_nil, hfmt]

/-- Claim C23 on a handler-less logger `child` whose root `root` renders `%c`:
the event built with `child` is written with the text `child`. -/
theorem LogFormatter.name_item_uses_event_logger_witness :
    Examples.nameChild.log Examples.strftime0 .WARN Examples.eventOfChild
        = some [⟨4, "child".toList⟩] ∧
      Examples.nameRoot.m_name = "root".toList :=
  ⟨(LogFormatter.name_item_uses_event_logger Examples.strftime0).2.2.2 Examples.nameChild
      Examples.nameRoot Examples.nameHandler Examples.nameFormatter .WARN Examples.eventOfChild
      (by decide) rfl rfl rfl rfl (by decide) (by decide) (by decide),
    rfl⟩

/-- A property of the loop state that the literal step, the directive step and
the error step each keep holds when the outer loop returns. -/
theorem LogFormatter.initLoop_invariant (p : Str) (P : InitState → Prop)
    (hlit : ∀ (st : InitState) (c : Char), P st → P { st with nstr := st.nstr ++ [c] })
    (hdir : ∀ (st : InitState) (str fmt : Str), P st →
      P { nstr := if (!st.nstr.isEmpty) = true then [] else st.nstr,
          vec := (if (!st.nstr.isEmpty) = true then st.vec ++ [⟨st.nstr, [], 0⟩] else st.vec)
            ++ [⟨str, fmt, 1⟩],
          m_error := st.m_error })
    (herr : ∀ (st : InitState) (fmt : Str), P st →
      P { st with m_error := true,
                  vec := st.vec ++ [⟨"<<pattern_error>>".toList, fmt, 0⟩] }) :
    ∀ (fuel i : Nat) (st r : InitState), P st → initLoop p fuel i st = some r → P r := by
  intro fuel
  induction fuel with
  | zero => intro i st r _ h; simp [initLoop] at h
  | succ fuel ih =>
    intro i st r hP h
    unfold initLoop at h
    by_cases hi : i < p.length
    · have hc : p[i]? = some p[i] := List.getElem?_eq_getElem hi
      simp only [hi, if_true, hc, Option.some_bind] at h
      by_cases hpc : p[i] = '%'
      · simp only [hpc, ne_eq, not_true_eq_false, if_false] at h
        cases hesc : (if i + 1 < p.length then
            p[i + 1]?.bind fun c1 => some (decide (c1 = '%')) else some false) with
        | none => rw [hesc] at h; simp at h
        | some e =>
          rw [hesc] at h
          simp only [Option.some_bind] at h
          cases e with
          | true =>
            simp only [if_true] at h
            exact ih (i + 1) _ r (hlit st '%' hP) h
          | false =>
            simp only [Bool.false_eq_true, if_false] at h
            cases hscan : scanDirective p i (p.length + 1) ⟨i + 1, 0, 0, [], []⟩ with
            | none => rw [hscan] at h; simp at h
            | some s =>
              rw [hscan] at h
              simp only [Option.some_bind] at h
              split at h
              · exact ih _ _ r (hdir st s.str s.fmt hP) h
              · split at h
                · cases hsf : substrFrom p i with
                  | none => rw [hsf] at h; simp at h
                  | some v =>
                    rw [hsf] at h
                    simp only [Option.some_bind] at h
                    exact ih _ _ r (herr st s.fmt hP) h
                · exact ih _ _ r hP h
      · simp only [ne_eq, hpc, not_false_eq_true, if_true] at h
        exact ih (i + 1) _ r (hlit st p[i] hP) h
    · simp only [hi, if_false, Option.some.injEq] at h
      subst h
      exact hP

/-- When the outer loop ends with `m_error` set, `vec` holds the literal
`<<pattern_error>>`. -/
theorem LogFormatter.initLoop_error_marker (p : Str) (fuel i : Nat) (r : InitState)
    (h : initLoop p fuel i ⟨[], [], false⟩ = some r) (he : r.m_error = true) :
    ∃ fmt, (⟨"<<pattern_error>>".toList, fmt, 0⟩ : Tok) ∈ r.vec := by
  have := LogFormatter.initLoop_invariant p
    (fun st => st.m_error = true → ∃ fmt, (⟨"<<pattern_error>>".toList, fmt, 0⟩ : Tok) ∈ st.vec)
    (fun st c hP => hP)
    (fun st str fmt hP he => by
      obtain ⟨g, hg⟩ := hP he
      refine ⟨g, List.mem_append_left _ ?_⟩
      split
      · exact List.mem_append_left _ hg
      · exact hg)
    (fun st fmt _ _ => ⟨fmt, by simp⟩)
    fuel i ⟨[], [], false⟩ r (fun h0 => by simp at h0) h
  exact this he

/-- When the item loop ends with `m_error` set, it was set before or the items
hold an `<<error_format %...>>` literal. -/
theorem LogFormatter.buildItems_error_item :
    ∀ (vec : List Tok) (m_items : List FormatItem) (m_error : Bool),
      (buildItems vec (m_items, m_error)).2 = true → m_error = true ∨
        ∃ s, FormatItem.StringFormatItem ("<<error_format %".toList ++ s ++ ">>".toList)
          ∈ (buildItems vec (m_items, m_error)).1 := by
  intro vec
  induction vec with
  | nil => intro m_items m_error h; exact Or.inl h
  | cons t vec ih =>
    intro m_items m_error h
    unfold buildItems at h ⊢
    split
    · rename_i h0
      rw [if_pos h0] at h
      exact ih _ _ h
    · rename_i h0
      rw [if_neg h0] at h
      split
      · exact Or.inr ⟨t.str, LogFormatter.buildItems_mem_acc _ _ _ _ (by simp)⟩
      · rename_i it hit
        rw [hit] at h
        exact ih _ _ h

/-- The text of a literal item is a contiguous part of the text rendered on a
good decimal stream with no pending width. -/
theorem LogFormatter.format_item_infix (strftime : Str → Nat → Str) (logger : Logger)
    (level : Level) (event : LogEvent) (s : Str) :
    ∀ (items : List FormatItem) (b : Str) (c : Char), FormatItem.StringFormatItem s ∈ items →
      s <:+: (items.foldl (fun (os : OStream) i => i.format strftime os logger level event)
        ⟨b, true, .dec, 0, c⟩).buf := by
  intro items
  induction items with
  | nil => intro b c h; simp at h
  | cons a t ih =>
    intro b c h
    rw [List.foldl_cons, FormatItem.format_plain]
    rcases List.mem_cons.mp h with h | h
    · rw [LogFormatter.foldl_format_plain, ← h]
      simp only [FormatItem.format, OStream.fresh, OStream.putStr_plain, List.nil_append]
      exact ⟨b, _, rfl⟩
    · exact ih _ c h

/-- Claim C21: when the formatter compiled from a pattern has `m_error` set,
the text it renders for any logger, level and event contains
`<<pattern_error>>` or `<<error_format %`. -/
theorem LogFormatter.error_is_rendered (p : Str) (f : LogFormatter)
    (hnew : LogFormatter.new p = some f) (herr : f.m_error = true)
    (strftime : Str → Nat → Str) (logger : Logger) (level : Level) (event : LogEvent) :
    "<<pattern_error>>".toList <:+: f.format strftime logger level event ∨
      "<<error_format %".toList <:+: f.format strftime logger level event := by
  unfold LogFormatter.new init at hnew
  cases hl : initLoop p (p.length + 1) 0 ⟨[], [], false⟩ with
  | none => rw [hl] at hnew; simp at hnew
  | some r =>
    rw [hl] at hnew
    simp only [Option.some_bind, Option.some.injEq] at hnew
    subst hnew
    simp only at herr
    unfold LogFormatter.format
    simp only
    rcases LogFormatter.buildItems_error_item _ _ _ herr with he | ⟨s, hs⟩
    · obtain ⟨g, hg⟩ := LogFormatter.initLoop_error_marker p _ _ r hl he
      left
      refine LogFormatter.format_item_infix strftime logger level event _ _ [] ' ' ?_
      apply LogFormatter.buildItems_mem_literal _ g
      split
      · exact List.mem_append_left _ hg
      · exact hg
    · right
      refine List.IsInfix.trans ?_
        (LogFormatter.format_item_infix strftime logger level event _ _ [] ' ' hs)
      exact ⟨[], s ++ ">>".toList, by simp⟩

/-- Claim C21 at the pattern `a%Q`, whose formatter has `m_error` set. -/
theorem LogFormatter.error_is_rendered_witness :
    (LogFormatter.new "a%Q".toList).map (fun f => f.m_error) = some true ∧
      ("<<pattern_error>>".toList <:+:
          (⟨"a%Q".toList, [.StringFormatItem "a".toList,
              .StringFormatItem "<<error_format %Q>>".toList], true⟩ : LogFormatter).format
            Examples.strftime0 Examples.rootLogger .DEBUG Examples.event0 ∨
        "<<error_format %".toList <:+:
          (⟨"a%Q".toList, [.StringFormatItem "a".toList,
              .StringFormatItem "<<error_format %Q>>".toList], true⟩ : LogFormatter).format
            Examples.strftime0 Examples.rootLogger .DEBUG Examples.event0) :=
  ⟨by decide,
    LogFormatter.error_is_rendered "a%Q".toList _ (by decide) rfl Examples.strftime0
      Examples.rootLogger .DEBUG Examples.event0⟩

end Invariants


end gameserver
